import Mathlib

/-!
Verification of spicetify-playlist-hotkeys.

This file gives a shallow embedding, in Lean 4, of the core logic of the
repository:

* the combo normalizer and per-combo execution lock of
  `src/hotkeys.ts` (class `HotkeyManager`, final revision, the one with
  `executionLocks`);
* the helper-bridge client state transitions of `src/hotkeys.ts`
  (`ensureHelper`, the `es.onerror` handler of `startHelperEvents`,
  `startHelperRetry`);
* the playlist mutation engine of `src/playlists.ts`
  (class `PlaylistManager`).

JavaScript strings are modelled as Lean `String`; `toLowerCase` /
`toUpperCase` are modelled on the ASCII range (all strings the code
compares against are ASCII); `localeCompare` is modelled as code-point
order.  `Date.now()` is modelled as an explicit `now : Nat` parameter;
remote calls are modelled by an explicit environment (`Env`) answering
each request, and every function that performs remote calls also
returns the list of requests it issued, in order.
-/

namespace JsStr

/-- JS `String.prototype.trim` on a character list: drop whitespace from
both ends. -/
def trimChars (l : List Char) : List Char :=
  ((l.dropWhile Char.isWhitespace).reverse.dropWhile Char.isWhitespace).reverse

/-- JS `String.prototype.trim`. -/
def jsTrim (s : String) : String :=
  ⟨trimChars s.data⟩

/-- JS `String.prototype.toLowerCase` (ASCII model). -/
def jsToLower (s : String) : String :=
  ⟨s.data.map Char.toLower⟩

/-- JS `String.prototype.toUpperCase` (ASCII model). -/
def jsToUpper (s : String) : String :=
  ⟨s.data.map Char.toUpper⟩

/-- JS `hay.includes(needle)` on character lists. -/
def containsChars : List Char → List Char → Bool
  | _, [] => true
  | [], _ :: _ => false
  | c :: rest, needle => needle.isPrefixOf (c :: rest) || containsChars rest needle

/-- JS `hay.includes(needle)`. -/
def jsIncludes (hay needle : String) : Bool :=
  containsChars hay.data needle.data

/-- JS `s.startsWith(pre)` (kernel-reducible model of
`String.startsWith`). -/
def jsStartsWith (s pre : String) : Bool :=
  pre.data.isPrefixOf s.data

/-- JS `combo.split('+')` on a character list, with accumulator holding
the current (reversed) fragment.  JS `split` always returns at least one
fragment, and fragments never contain the separator. -/
def splitPlusAux : List Char → List Char → List (List Char)
  | [], acc => [acc.reverse]
  | c :: rest, acc =>
    if c = '+' then acc.reverse :: splitPlusAux rest []
    else splitPlusAux rest (c :: acc)

/-- JS `combo.split('+')`. -/
def splitPlus (s : String) : List String :=
  (splitPlusAux s.data []).map (fun l => ⟨l⟩)

/-- JS `parts.join('+')`. -/
def joinPlus : List String → String
  | [] => ""
  | [p] => p
  | p :: q :: rest => p ++ "+" ++ joinPlus (q :: rest)

/-- A character list is trimmed when `trimChars` leaves it unchanged;
equivalently, when dropping whitespace from either end is a no-op. -/
def Trimmed (l : List Char) : Prop :=
  l.dropWhile Char.isWhitespace = l ∧
    l.reverse.dropWhile Char.isWhitespace = l.reverse

end JsStr
namespace HotkeyManager

open JsStr

/-- `HotkeyManager.normalizeKey`'s `keyMap` lookup table
(`src/hotkeys.ts`). -/
def keyMap (key : String) : Option String :=
  match key with
  | "ArrowUp" => some "Up"
  | "ArrowDown" => some "Down"
  | "ArrowLeft" => some "Left"
  | "ArrowRight" => some "Right"
  | " " => some "Space"
  | _ => none

/-- `HotkeyManager.normalizeKey` (`src/hotkeys.ts`): upper-case a single
character, otherwise map through `keyMap` falling back to the key
itself. -/
def normalizeKey (key : String) : String :=
  if key.data.length = 1 then jsToUpper key
  else
    match keyMap key with
    | some v => v
    | none => key

/-- `HotkeyManager.normalizeModifier` (`src/hotkeys.ts`): case-insensitive
canonicalization of modifier words, falling back to `normalizeKey`. -/
def normalizeModifier (modifier : String) : String :=
  match jsToLower modifier with
  | "ctrl" => "Ctrl"
  | "control" => "Ctrl"
  | "cmd" => "Ctrl"
  | "command" => "Ctrl"
  | "alt" => "Alt"
  | "option" => "Alt"
  | "shift" => "Shift"
  | _ => normalizeKey modifier

/-- The `order.indexOf` rank used by the sort comparator in
`HotkeyManager.normalizeCombo`: `Ctrl`, `Alt`, `Shift` rank 0, 1, 2, and
everything else ranks after them. -/
def modifierRank (s : String) : Nat :=
  if s = "Ctrl" then 0 else if s = "Alt" then 1 else if s = "Shift" then 2 else 3

/-- The comparator of `HotkeyManager.normalizeCombo` as a binary relation
(`comparator(a,b) ≤ 0`): by rank, tie-broken by `localeCompare`
(modelled as code-point order). -/
def comboLE (a b : String) : Prop :=
  modifierRank a < modifierRank b ∨ (modifierRank a = modifierRank b ∧ a ≤ b)

instance : DecidableRel comboLE := fun a b => by unfold comboLE; infer_instance

instance : IsTotal String comboLE where
  total a b := by
    unfold comboLE
    rcases Nat.lt_trichotomy (modifierRank a) (modifierRank b) with h | h | h
    · exact Or.inl (Or.inl h)
    · rcases le_total a b with hab | hab
      · exact Or.inl (Or.inr ⟨h, hab⟩)
      · exact Or.inr (Or.inr ⟨h.symm, hab⟩)
    · exact Or.inr (Or.inl h)

instance : IsTrans String comboLE where
  trans a b c hab hbc := by
    unfold comboLE at *
    rcases hab with h1 | ⟨h1, h1'⟩ <;> rcases hbc with h2 | ⟨h2, h2'⟩
    · exact Or.inl (h1.trans h2)
    · exact Or.inl (h2 ▸ h1)
    · exact Or.inl (h1 ▸ h2)
    · exact Or.inr ⟨h1.trans h2, h1'.trans h2'⟩

instance : IsAntisymm String comboLE where
  antisymm a b hab hba := by
    unfold comboLE at *
    rcases hab with h1 | ⟨h1, h1'⟩ <;> rcases hba with h2 | ⟨h2, h2'⟩ <;>
      first
      | omega
      | exact absurd h1 (by omega)
      | exact absurd h2 (by omega)
      | exact le_antisymm h1' h2'

/-- `HotkeyManager.normalizeCombo` (`src/hotkeys.ts`): split on `+`, trim
each part, normalize each part, sort by the modifier-rank comparator,
join with `+`. -/
def normalizeCombo (combo : String) : String :=
  joinPlus
    (List.insertionSort comboLE
      ((splitPlus combo).map (fun part => normalizeModifier (jsTrim part))))

/-- The seven lower-cased modifier words recognized by
`normalizeModifier`'s switch. -/
def isModifierWord (s : String) : Bool :=
  s = "ctrl" || s = "control" || s = "cmd" || s = "command" ||
    s = "alt" || s = "option" || s = "shift"

/-- A phrasing variant of the Ctrl modifier: after trimming and
lower-casing it is one of the four words the switch maps to `Ctrl`
(this also covers the macOS Command spellings). -/
def IsCtrlWord (w : String) : Prop :=
  jsToLower (jsTrim w) = "ctrl" ∨ jsToLower (jsTrim w) = "control" ∨
    jsToLower (jsTrim w) = "cmd" ∨ jsToLower (jsTrim w) = "command"

/-- A phrasing variant of the Alt modifier. -/
def IsAltWord (w : String) : Prop :=
  jsToLower (jsTrim w) = "alt" ∨ jsToLower (jsTrim w) = "option"

/-- A phrasing variant of the Shift modifier. -/
def IsShiftWord (w : String) : Prop :=
  jsToLower (jsTrim w) = "shift"

instance (w : String) : Decidable (IsCtrlWord w) := by unfold IsCtrlWord; infer_instance

instance (w : String) : Decidable (IsAltWord w) := by unfold IsAltWord; infer_instance

instance (w : String) : Decidable (IsShiftWord w) := by unfold IsShiftWord; infer_instance

end HotkeyManager
namespace HotkeyManager

/-- `lockTimeout = 500` (ms). -/
def lockTimeout : Nat := 500

/-- The per-combo execution-lock state of `HotkeyManager`:
`executionLocks` (combos currently mapped to `true`) plus the pending
`setTimeout` auto-expiry deletions scheduled by `acquireLock`. -/
structure LockState where
  held : List String
  timers : List (Nat × String)
deriving DecidableEq, Repr

/-- Fire every `setTimeout` whose deadline has passed by time `t`: each
deletes its combo from `executionLocks` unconditionally. -/
def fireTimers (t : Nat) (s : LockState) : LockState :=
  { held := s.held.filter
      (fun c => !(s.timers.any (fun tc => decide (tc.1 ≤ t) && (tc.2 == c)))),
    timers := s.timers.filter (fun tc => decide (t < tc.1)) }

/-- `HotkeyManager.acquireLock`: fail if held; otherwise hold the lock
and schedule its auto-expiry `lockTimeout` ms later. -/
def acquireLock (s : LockState) (combo : String) (t : Nat) : Bool × LockState :=
  if s.held.contains combo then (false, s)
  else
    (true,
      { held := combo :: s.held, timers := s.timers ++ [(t + lockTimeout, combo)] })

/-- `HotkeyManager.releaseLock`. -/
def releaseLock (s : LockState) (combo : String) : LockState :=
  { s with held := s.held.filter (fun c => c ≠ combo) }

/-- The fields of a keyboard event inspected by
`buildComboFromEvent`. -/
structure KeyboardEvent where
  ctrlKey : Bool
  metaKey : Bool
  altKey : Bool
  shiftKey : Bool
  key : String
deriving DecidableEq, Repr

/-- `HotkeyManager.buildComboFromEvent`. -/
def buildComboFromEvent (event : KeyboardEvent) : String :=
  let parts : List String :=
    (if event.ctrlKey || event.metaKey then ["Ctrl"] else []) ++
      (if event.altKey then ["Alt"] else []) ++
      (if event.shiftKey then ["Shift"] else [])
  let key := normalizeKey event.key
  let parts :=
    if key ≠ "" ∧ ¬(["Control", "Alt", "Shift", "Meta"].contains event.key) then
      parts ++ [key]
    else parts
  JsStr.joinPlus parts

/-- The two registration maps (`registrations`,
`globalRegistrations`), by normalized combo key. -/
structure Registrations where
  inApp : List String
  global : List String

/-- The triggers relevant to the per-combo lock: an in-app keydown
(`handleKeydown`), a helper-relayed combo message (the SSE `onmessage`
handler), and the settling of a running callback (which runs the
`finally releaseLock`). -/
inductive HEvent where
  | keydown (t : Nat) (event : KeyboardEvent)
  | helperCombo (t : Nat) (combo : String)
  | callbackSettled (t : Nat) (combo : String)

/-- One dispatch step.  Both trigger paths go through the same
`acquireLock` on the same `executionLocks` map; the result counts how
many callback invocations the event caused (0 or 1). -/
def stepHotkey (regs : Registrations) (s : LockState) : HEvent → LockState × Nat
  | .keydown t event =>
    let s := fireTimers t s
    let combo := buildComboFromEvent event
    if regs.inApp.contains combo then
      let (ok, s') := acquireLock s combo t
      (s', if ok then 1 else 0)
    else (s, 0)
  | .helperCombo t combo =>
    let s := fireTimers t s
    let normalized := normalizeCombo combo
    if regs.global.contains normalized then
      let (ok, s') := acquireLock s normalized t
      (s', if ok then 1 else 0)
    else (s, 0)
  | .callbackSettled t combo => (releaseLock (fireTimers t s) combo, 0)

/-- Run a sequence of events, counting total callback invocations. -/
def runHotkeys (regs : Registrations) : LockState → List HEvent → LockState × Nat
  | s, [] => (s, 0)
  | s, e :: es =>
    let (s', n) := stepHotkey regs s e
    let (s'', m) := runHotkeys regs s' es
    (s'', n + m)

def initLockState : LockState := ⟨[], []⟩

/-- `3000` ms: the fixed helper retry interval of `startHelperRetry`. -/
def helperRetryIntervalMs : Nat := 3000

/-- The helper-session state of `HotkeyManager`: bearer token, open
event-stream handle, availability and readiness flags, retry timer. -/
structure HelperState where
  helperToken : Option String
  helperES : Bool
  helperAvailable : Bool
  helperReady : Bool
  retryTimerActive : Bool
deriving DecidableEq, Repr

/-- `HotkeyManager.startHelperRetry`: activate the fixed-interval retry
loop unless it is already running. -/
def startHelperRetry (s : HelperState) : HelperState :=
  if s.retryTimerActive then s else { s with retryTimerActive := true }

/-- The `es.onerror` handler installed by `startHelperEvents`: close and
clear the stream, reset readiness and availability, discard the bearer
token, restart the retry loop. -/
def onHelperStreamError (s : HelperState) : HelperState :=
  startHelperRetry
    { s with
      helperES := false,
      helperReady := false,
      helperAvailable := false,
      helperToken := none }

/-- The `/hello` handshake response: HTTP-level `ok` and the `token`
field (absent or non-string modelled as `none`). -/
structure HelloResponse where
  httpOk : Bool
  token : Option String
deriving DecidableEq, Repr

/-- `!!token` for the stored token field. -/
def tokenTruthy : Option String → Bool
  | none => false
  | some t => t ≠ ""

/-- `HotkeyManager.ensureHelper`: reuse the session when available with
a truthy token, otherwise perform the `/hello` handshake (`resp`
models its outcome; `.error` is a network failure or the 2s timeout).
Returns (result, new state, whether a handshake request was issued). -/
def ensureHelper (s : HelperState) (resp : Except Unit HelloResponse) :
    Bool × HelperState × Bool :=
  if s.helperAvailable && tokenTruthy s.helperToken then (true, s, false)
  else
    match resp with
    | .error _ => (false, { s with helperAvailable := false, helperToken := none }, true)
    | .ok r =>
      if !r.httpOk then (false, s, true)
      else
        let token := r.token.getD ""
        (token ≠ "",
          { s with helperToken := some token, helperAvailable := token ≠ "" }, true)

end HotkeyManager
namespace PlaylistManager

open JsStr

/-!
### The `withTrackLock` promise chain

`PlaylistManager.withTrackLock` serializes operations per
`playlistId:trackUri` key through `pendingTrackOperations`: an arriving
call captures the currently stored completion promise (`previous`),
stores its own completion, awaits `previous` (errors swallowed), runs
its task, and in `finally` deletes the map entry only if it still holds
its own completion.  The machine below models one key's lifecycle:
`arrive i` is the synchronous part of the `i`-th `withTrackLock` call
(capture + store), `start i` is its task beginning to run (possible only
once the captured previous completion has settled), `finish i` is its
task settling, and `cleanup i` is its `finally` block.
-/

structure LockTraceState where
  nextArr : Nat
  pending : Option Nat
  prevOf : List (Option Nat)
  started : List Nat
  finished : List Nat
  cleaned : List Nat
deriving DecidableEq, Repr

inductive LockEvent where
  | arrive
  | start (i : Nat)
  | finish (i : Nat)
  | cleanup (i : Nat)
deriving DecidableEq, Repr

/-- One scheduler step; `none` marks an event the promise semantics
cannot produce (e.g. a task starting before the completion it awaits has
settled). -/
def lockStep (st : LockTraceState) : LockEvent → Option LockTraceState
  | .arrive =>
    some
      { st with
        nextArr := st.nextArr + 1,
        pending := some st.nextArr,
        prevOf := st.prevOf ++ [st.pending] }
  | .start i =>
    match st.prevOf[i]? with
    | none => none
    | some prev =>
      if i ∈ st.started then none
      else
        match prev with
        | none => some { st with started := i :: st.started }
        | some j =>
          if j ∈ st.finished then some { st with started := i :: st.started } else none
  | .finish i =>
    if i ∈ st.started ∧ i ∉ st.finished then
      some { st with finished := i :: st.finished }
    else none
  | .cleanup i =>
    if i ∈ st.finished ∧ i ∉ st.cleaned then
      some
        { st with
          cleaned := i :: st.cleaned,
          pending := if st.pending = some i then none else st.pending }
    else none

def lockInit : LockTraceState := ⟨0, none, [], [], [], []⟩

def lockRun : LockTraceState → List LockEvent → Option LockTraceState
  | st, [] => some st
  | st, e :: es =>
    match lockStep st e with
    | none => none
    | some st' => lockRun st' es

/-- The shape of a track object as read by `playlists.ts` from remote
responses: the four fields the code inspects (`uri`, `id`,
`linked_from.uri`, `linked_from.id`), each possibly absent or of the
wrong type (`none`). -/
structure TrackObj where
  uri : Option String
  id : Option String
  linkedFromUri : Option String
  linkedFromId : Option String
deriving DecidableEq, Repr

/-- One entry of a playlist-tracks page (`items(track(...))`). -/
structure PageItem where
  track : Option TrackObj
deriving DecidableEq, Repr

/-- A playlist-tracks page response: `items` (none when not an array)
and `total` (none when not a number). -/
structure PageResponse where
  items : Option (List PageItem)
  total : Option Nat
deriving DecidableEq, Repr

/-- The error values thrown by `Spicetify.CosmosAsync`, as inspected by
`playlists.ts`: a numeric `status` (`none` models a missing or
non-numeric status, whose `Number(...)` is `NaN`), the `reason` and
`body.error.reason` strings, the `message` string, whether the value is
an `Error` instance, whether it is a `SyntaxError`, and its
`String(...)` rendering. -/
structure RemoteError where
  status : Option Int
  reason : Option String
  bodyReason : Option String
  message : Option String
  isErrorInstance : Bool
  isSyntaxError : Bool
  display : String
deriving DecidableEq, Repr

/-- The remote requests `PlaylistManager` can issue, in the order they
are awaited.  There is no bulk playlist-membership `contains` request
anywhere in `playlists.ts`; the only `contains` endpoint used is the
liked-songs one. -/
inductive Request where
  | trackLookup (id : String)
  | pageFetch (playlistId : String) (limit offset : Nat)
  | addTracks (playlistId trackUri : String)
  | likedContains (id : String)
  | likedPut (id : String)
deriving DecidableEq, Repr

/-- The remote environment: what each endpoint would answer.  `error`
models a rejected promise / thrown value. -/
structure Env where
  trackLookup : String → Except RemoteError TrackObj
  page : String → Nat → Except RemoteError PageResponse
  addTracks : String → String → Except RemoteError Unit
  likedContains : String → Except RemoteError (Option (List Bool))
  likedPut : String → Except RemoteError Unit

/-- `PlaylistTrackCacheEntry` of `playlists.ts`: known member URIs and
ids (JS `Set`s, modelled as duplicate-free lists), timestamp, and the
completeness flag. -/
structure PlaylistTrackCacheEntry where
  uris : List String
  trackIds : List String
  timestamp : Nat
  complete : Bool
deriving DecidableEq, Repr

/-- `playlistTrackCache`, keyed by playlist id. -/
def CacheMap := String → Option PlaylistTrackCacheEntry

def CacheMap.set (m : CacheMap) (k : String) (e : PlaylistTrackCacheEntry) : CacheMap :=
  fun q => if q = k then some e else m q

def CacheMap.del (m : CacheMap) (k : String) : CacheMap :=
  fun q => if q = k then none else m q

def emptyCache : CacheMap := fun _ => none

/-- `playlistTrackCacheTTL = 2 * 60 * 1000` (2 minutes). -/
def playlistTrackCacheTTL : Nat := 2 * 60 * 1000

/-- JS `Set.prototype.add`: append if absent. -/
def setAdd (l : List String) (x : String) : List String :=
  if l.contains x then l else l ++ [x]

/-- Add each element of `xs`, skipping falsy (empty) strings, as the
`for ... if (x) add(x)` loops of `updatePlaylistCacheWithTrack` do. -/
def setAddNonempty (l : List String) (xs : List String) : List String :=
  xs.foldl (fun acc x => if x = "" then acc else setAdd acc x) l

/-- Add an optional string (JS: add only when the field is a string). -/
def setAddOpt (l : List String) (o : Option String) : List String :=
  match o with
  | none => l
  | some s => setAdd l s

/-- JS `uri.split(':')` on a character list (same shape as
`splitPlusAux`, with `':'` as separator). -/
def splitColonAux : List Char → List Char → List String
  | [], acc => [⟨acc.reverse⟩]
  | c :: rest, acc =>
    if c = ':' then ⟨acc.reverse⟩ :: splitColonAux rest []
    else splitColonAux rest (c :: acc)

/-- `PlaylistManager.extractTrackId`: third `':'`-separated component,
or the empty string. -/
def extractTrackId (uri : String) : String :=
  if uri = "" then ""
  else
    let parts := splitColonAux uri.data []
    if 3 ≤ parts.length then parts.getD 2 "" else ""

/-- `PlaylistManager.splitIntoBatches` (defined in `playlists.ts` but
never called; kept for the batching analysis of the spec). -/
def splitIntoBatchesAux : List α → Nat → List (List α)
  | [], _ => []
  | x :: xs, b => (x :: xs).take (b + 1) :: splitIntoBatchesAux ((x :: xs).drop (b + 1)) b
termination_by l _ => l.length
decreasing_by
  simp only [List.drop_succ_cons, List.length_drop, List.length_cons]
  omega

/-- `PlaylistManager.splitIntoBatches` (defined in `playlists.ts` but
never called; kept for the batching analysis of the spec).  A
non-positive batch size returns the whole list as one batch. -/
def splitIntoBatches (items : List α) (batchSize : Nat) : List (List α) :=
  match batchSize with
  | 0 => [items]
  | b + 1 => splitIntoBatchesAux items b

/-- `PlaylistManager.getFreshPlaylistTrackCache`: return the entry if it
exists and is within TTL, deleting it (and returning nothing) when
expired. -/
def getFreshPlaylistTrackCache (cache : CacheMap) (now : Nat) (playlistId : String) :
    Option PlaylistTrackCacheEntry × CacheMap :=
  match cache playlistId with
  | none => (none, cache)
  | some entry =>
    if now - entry.timestamp > playlistTrackCacheTTL then (none, cache.del playlistId)
    else (some entry, cache)

/-- `PlaylistManager.cacheHasCandidate`. -/
def cacheHasCandidate (entry : PlaylistTrackCacheEntry)
    (candidateUris candidateIds : List String) : Bool :=
  candidateUris.any (fun u => entry.uris.contains u) ||
    (!candidateIds.isEmpty && candidateIds.any (fun i => entry.trackIds.contains i))

/-- `PlaylistManager.updatePlaylistCacheWithTrack`: additive merge into
the entry (creating it if needed), refreshing the timestamp, and raising
(never lowering) the completeness flag. -/
def updatePlaylistCacheWithTrack (cache : CacheMap) (now : Nat) (playlistId : String)
    (uris ids : List String) (complete : Bool) : CacheMap :=
  let entry :=
    match cache playlistId with
    | some e => e
    | none =>
      { uris := [], trackIds := [], timestamp := now, complete := complete }
  let entry :=
    { entry with
      uris := setAddNonempty entry.uris uris,
      trackIds := setAddNonempty entry.trackIds ids,
      timestamp := now,
      complete := entry.complete || complete }
  cache.set playlistId entry

/-- `PlaylistManager.replacePlaylistCacheEntry`. -/
def replacePlaylistCacheEntry (cache : CacheMap) (now : Nat) (playlistId : String)
    (uris ids : List String) (complete : Bool) : CacheMap :=
  cache.set playlistId
    { uris := uris, trackIds := ids, timestamp := now, complete := complete }

/-- The `addUri` step of `getTrackIdCandidates`: skip falsy values, add
the URI, and add the id derived from it when non-empty.  The state is
`(ids, uris)`. -/
def candAddUri (acc : List String × List String) (o : Option String) :
    List String × List String :=
  match o with
  | none => acc
  | some uri =>
    if uri = "" then acc
    else
      let uris := setAdd acc.2 uri
      let derivedId := extractTrackId uri
      let ids := if derivedId = "" then acc.1 else setAdd acc.1 derivedId
      (ids, uris)

/-- The `addId` step of `getTrackIdCandidates`. -/
def candAddId (acc : List String × List String) (o : Option String) :
    List String × List String :=
  match o with
  | none => acc
  | some id => if id = "" then acc else (setAdd acc.1 id, acc.2)

/-- `PlaylistManager.getTrackIdCandidates`: collect candidate track ids
and URIs for a track, issuing one `GET /v1/tracks/{id}` lookup whenever
the URI is in canonical `spotify:track:` form (lookup failures are
ignored). -/
def getTrackIdCandidates (env : Env) (trackUri : String) :
    (List String × List String) × List Request :=
  let uris : List String := if trackUri = "" then [] else setAdd [] trackUri
  let ids : List String := []
  if jsStartsWith trackUri "spotify:track:" then
    let baseId := extractTrackId trackUri
    let ids := if baseId = "" then ids else setAdd ids baseId
    match env.trackLookup baseId with
    | .error _ => ((ids, uris), [.trackLookup baseId])
    | .ok tr =>
      let acc := candAddUri (ids, uris) tr.uri
      let acc := candAddId acc tr.id
      let acc := candAddUri acc tr.linkedFromUri
      let acc := candAddId acc tr.linkedFromId
      (acc, [.trackLookup baseId])
  else
    ((ids, uris), [])

/-- `PlaylistManager.isTrackLiked`: liked-songs `contains` check; any
error or non-array response counts as not liked. -/
def isTrackLiked (env : Env) (trackUri : String) : Bool × List Request :=
  let trackId := extractTrackId trackUri
  if trackId = "" then (false, [])
  else
    match env.likedContains trackId with
    | .error _ => (false, [.likedContains trackId])
    | .ok resp =>
      match resp with
      | some (true :: _) => (true, [.likedContains trackId])
      | _ => (false, [.likedContains trackId])

inductive LikedStatus where
  | added
  | alreadyLiked
  | failed
deriving DecidableEq, Repr

/-- `PlaylistManager.addToLikedSongs`: like the current track; a thrown
`SyntaxError` (malformed response body on a successful write) is treated
as success; any other error yields the `failed` sub-status. -/
def addToLikedSongs (env : Env) (trackUri : String) : LikedStatus × List Request :=
  let trackId := extractTrackId trackUri
  if trackId = "" then (.failed, [])
  else
    let (liked, reqs1) := isTrackLiked env trackUri
    if liked then (.alreadyLiked, reqs1)
    else
      match env.likedPut trackId with
      | .ok _ => (.added, reqs1 ++ [.likedPut trackId])
      | .error e =>
        (if e.isSyntaxError then .added else .failed, reqs1 ++ [.likedPut trackId])

/-- `PlaylistManager.isDuplicateTrackError`: status must be 400 or 409,
and the (lower-cased) reason or message must mention `duplicate`. -/
def isDuplicateTrackError (error : Option RemoteError) : Bool :=
  match error with
  | none => false
  | some e =>
    if e.status ≠ some 400 ∧ e.status ≠ some 409 then false
    else
      let reason := jsToLower (e.bodyReason.getD (e.reason.getD ""))
      let message := jsToLower (e.message.getD "")
      jsIncludes reason "duplicate" || jsIncludes message "duplicate"

/-- The aggregation state of `scanPlaylistForTrack`: `aggregatedUris` and
`aggregatedIds`. -/
structure ScanAcc where
  aggUris : List String
  aggIds : List String
deriving DecidableEq, Repr

/-- `addUriCandidate` of `scanPlaylistForTrack`: skip falsy, aggregate,
report whether the URI is one of the candidates. -/
def addUriCandidate (candidateUris : List String) (acc : ScanAcc) (uri : String) :
    ScanAcc × Bool :=
  if uri = "" then (acc, false)
  else ({ acc with aggUris := setAdd acc.aggUris uri }, candidateUris.contains uri)

/-- `addIdCandidate` of `scanPlaylistForTrack`. -/
def addIdCandidate (candidateIds : List String) (acc : ScanAcc) (id : String) :
    ScanAcc × Bool :=
  if id = "" then (acc, false)
  else ({ acc with aggIds := setAdd acc.aggIds id }, candidateIds.contains id)

/-- Fold with early exit: once a match is found, later elements are not
processed (the source returns from `processItems` immediately). -/
def foldStop (f : ScanAcc → α → ScanAcc × Bool) (init : ScanAcc) (xs : List α) :
    ScanAcc × Bool :=
  xs.foldl (fun st x => if st.2 then st else f st.1 x) (init, false)

/-- One item of the `processItems` loop: compare the track's URIs (own
and `linked_from`) against the candidate URIs, then its ids (own,
`linked_from`, and ids derived from the URIs) against the candidate
ids. -/
def processItem (candidateUris candidateIds : List String) (acc : ScanAcc)
    (item : PageItem) : ScanAcc × Bool :=
  match item.track with
  | none => (acc, false)
  | some track =>
    let uriCandidates := setAddOpt (setAddOpt [] track.uri) track.linkedFromUri
    let (acc, found) := foldStop (addUriCandidate candidateUris) acc uriCandidates
    if found then (acc, true)
    else
      let idCandidates := setAddOpt (setAddOpt [] track.id) track.linkedFromId
      let idCandidates := uriCandidates.foldl
        (fun l u =>
          let d := extractTrackId u
          if d = "" then l else setAdd l d)
        idCandidates
      let directId := extractTrackId (track.uri.getD "")
      let idCandidates := if directId = "" then idCandidates else setAdd idCandidates directId
      foldStop (addIdCandidate candidateIds) acc idCandidates

/-- `processItems` of `scanPlaylistForTrack`. -/
def processItems (candidateUris candidateIds : List String) (acc : ScanAcc)
    (items : List PageItem) : ScanAcc × Bool :=
  foldStop (processItem candidateUris candidateIds) acc items

/-- Result of the sequential (`total` unavailable) pagination loop. -/
inductive SeqOutcome where
  | found (acc : ScanAcc) (reqs : List Request)
  | done (complete : Bool) (lastFetched : Nat) (acc : ScanAcc) (reqs : List Request)
deriving Repr

/-- The `while (lastFetched === limit)` loop of `scanPlaylistForTrack`
(taken when the first page carries no numeric `total`).  `fuel` bounds
the number of iterations; exhausting it is modelled like a page fetch
that never settles, leaving `complete = false`. -/
def seqScanLoop (env : Env) (playlistId : String)
    (candidateUris candidateIds : List String) :
    Nat → Nat → Nat → ScanAcc → SeqOutcome
  | 0, _, lastFetched, acc => .done false lastFetched acc []
  | fuel + 1, offset, lastFetched, acc =>
    if lastFetched = 100 then
      match env.page playlistId offset with
      | .error _ => .done false lastFetched acc [.pageFetch playlistId 100 offset]
      | .ok page =>
        let items := page.items.getD []
        let (acc', found) := processItems candidateUris candidateIds acc items
        if found then .found acc' [.pageFetch playlistId 100 offset]
        else if items.length < 100 then
          .done true items.length acc' [.pageFetch playlistId 100 offset]
        else
          match seqScanLoop env playlistId candidateUris candidateIds fuel
            (offset + items.length) items.length acc' with
          | .found a r => .found a (.pageFetch playlistId 100 offset :: r)
          | .done c lf a r => .done c lf a (.pageFetch playlistId 100 offset :: r)
    else
      .done true lastFetched acc []

/-- The worker pool of `scanPlaylistForTrack` (taken when the first page
carries a numeric `total`): `min 5 n` workers drain the offset queue,
one fetch each at a time; a failed fetch kills its worker; a match stops
the pool.  This models the queue-order schedule of the cooperative
worker pool; the set of issued requests is page fetches only under every
schedule. -/
def workerScanLoop (env : Env) (playlistId : String)
    (candidateUris candidateIds : List String) :
    List Nat → Nat → ScanAcc → Bool → Bool × Bool × ScanAcc × List Request
  | [], _, acc, err => (false, err, acc, [])
  | off :: rest, alive, acc, err =>
    match env.page playlistId off with
    | .error _ =>
      if alive ≤ 1 then (false, true, acc, [.pageFetch playlistId 100 off])
      else
        let (f, e, a, r) :=
          workerScanLoop env playlistId candidateUris candidateIds rest (alive - 1) acc true
        (f, e, a, .pageFetch playlistId 100 off :: r)
    | .ok page =>
      let items := page.items.getD []
      let (acc', found) := processItems candidateUris candidateIds acc items
      if found then (true, err, acc', [.pageFetch playlistId 100 off])
      else
        let (f, e, a, r) :=
          workerScanLoop env playlistId candidateUris candidateIds rest alive acc' err
        (f, e, a, .pageFetch playlistId 100 off :: r)

/-- The `remainingOffsets` queue: `limit, 2*limit, ...` strictly below
`total`. -/
def remainingOffsetsList (limit total : Nat) : List Nat :=
  (List.range ((total - 1) / limit)).map (fun k => (k + 1) * limit)

/-- `PlaylistManager.scanPlaylistForTrack`: page through the playlist
(page size 100) comparing URIs and ids against the candidates; on a
match, merge the aggregates and the candidates into the cache
(incomplete); on exhaustion without error, store a complete entry; on
any fetch error, only merge what was seen (incomplete).  A first-page
error returns `false` without touching the cache. -/
def scanPlaylistForTrack (env : Env) (cache : CacheMap) (now : Nat) (fuel : Nat)
    (playlistId : String) (candidateUris candidateIds : List String) :
    Bool × CacheMap × List Request :=
  let limit := 100
  match env.page playlistId 0 with
  | .error _ => (false, cache, [.pageFetch playlistId limit 0])
  | .ok response =>
    let firstItems := response.items.getD []
    let (acc1, found1) := processItems candidateUris candidateIds ⟨[], []⟩ firstItems
    let reqs0 : List Request := [.pageFetch playlistId limit 0]
    if found1 then
      let cache := updatePlaylistCacheWithTrack cache now playlistId acc1.aggUris acc1.aggIds false
      let cache := updatePlaylistCacheWithTrack cache now playlistId candidateUris candidateIds false
      (true, cache, reqs0)
    else
      match response.total with
      | none =>
        match seqScanLoop env playlistId candidateUris candidateIds fuel
          firstItems.length firstItems.length acc1 with
        | .found acc reqs =>
          let cache := updatePlaylistCacheWithTrack cache now playlistId acc.aggUris acc.aggIds false
          let cache := updatePlaylistCacheWithTrack cache now playlistId candidateUris candidateIds false
          (true, cache, reqs0 ++ reqs)
        | .done complete lastFetched acc reqs =>
          if complete then
            (false, replacePlaylistCacheEntry cache now playlistId acc.aggUris acc.aggIds
              (lastFetched < limit), reqs0 ++ reqs)
          else
            (false, updatePlaylistCacheWithTrack cache now playlistId acc.aggUris acc.aggIds false,
              reqs0 ++ reqs)
      | some total =>
        let remainingOffsets := remainingOffsetsList limit total
        if remainingOffsets.isEmpty then
          (false, replacePlaylistCacheEntry cache now playlistId acc1.aggUris acc1.aggIds true,
            reqs0)
        else
          let concurrency := min 5 remainingOffsets.length
          let (found, encounteredError, acc2, reqs2) :=
            workerScanLoop env playlistId candidateUris candidateIds remainingOffsets
              concurrency acc1 false
          if found then
            let cache :=
              updatePlaylistCacheWithTrack cache now playlistId acc2.aggUris acc2.aggIds false
            let cache :=
              updatePlaylistCacheWithTrack cache now playlistId candidateUris candidateIds false
            (true, cache, reqs0 ++ reqs2)
          else if encounteredError then
            (false, updatePlaylistCacheWithTrack cache now playlistId acc2.aggUris acc2.aggIds false,
              reqs0 ++ reqs2)
          else
            (false, replacePlaylistCacheEntry cache now playlistId acc2.aggUris acc2.aggIds true,
              reqs0 ++ reqs2)

/-- `PlaylistManager.addTrackToCache`: optimistic cache update after a
successful write (never marks completeness). -/
def addTrackToCache (env : Env) (cache : CacheMap) (now : Nat)
    (playlistId trackUri : String) : CacheMap × List Request :=
  let ((ids, uris), reqs) := getTrackIdCandidates env trackUri
  let uriSet := setAdd uris trackUri
  (updatePlaylistCacheWithTrack cache now playlistId uriSet ids false, reqs)

/-- `PlaylistManager.isTrackInPlaylist`: resolve candidates, consult a
fresh cache entry (a hit answers `true`; a complete entry with no hit
answers `false`), otherwise scan remotely. -/
def isTrackInPlaylist (env : Env) (cache : CacheMap) (now : Nat) (fuel : Nat)
    (trackUri playlistId : String) : Bool × CacheMap × List Request :=
  let ((ids, uris), reqs1) := getTrackIdCandidates env trackUri
  let candidateUris := setAdd uris trackUri
  let candidateIds := ids
  let (entryOpt, cache) := getFreshPlaylistTrackCache cache now playlistId
  match entryOpt with
  | some entry =>
    if cacheHasCandidate entry candidateUris candidateIds then (true, cache, reqs1)
    else if entry.complete then (false, cache, reqs1)
    else
      let (found, cache, reqs2) :=
        scanPlaylistForTrack env cache now fuel playlistId candidateUris candidateIds
      (found, cache, reqs1 ++ reqs2)
  | none =>
    let (found, cache, reqs2) :=
      scanPlaylistForTrack env cache now fuel playlistId candidateUris candidateIds
    (found, cache, reqs1 ++ reqs2)

inductive AddOutcome where
  | added
  | alreadyPresent
deriving DecidableEq, Repr

/-- ASCII 39, the apostrophe. -/
def apos : String := ⟨[Char.ofNat 39]⟩

/-- The permission failure message thrown by `addToSinglePlaylist` on a
403 / Forbidden error. -/
def permissionErrorMessage : String :=
  "Playlist is read-only or you don" ++ apos ++ "t have permission to add tracks"

/-- `error.status || 'unknown'` as rendered into the generic failure
message. -/
def statusText : Option Int → String
  | none => "unknown"
  | some n => if n = 0 then "unknown" else toString n

/-- The generic failure message of `addToSinglePlaylist`. -/
def genericErrorMessage (playlistId : String) (e : RemoteError) : String :=
  let details :=
    if e.isErrorInstance then
      e.message.getD "" ++ " (status: " ++ statusText e.status ++ ")"
    else
      "Unknown error: " ++ e.display
  "Failed to add to playlist " ++ playlistId ++ ": " ++ details

/-- The body of `PlaylistManager.addToSinglePlaylist` (the task run
under `withTrackLock`): membership check, then the remote write, with
duplicate-error reclassification, permission-error description, and
generic failure otherwise. -/
def addToSinglePlaylist (env : Env) (cache : CacheMap) (now : Nat) (fuel : Nat)
    (trackUri playlistId : String) :
    Except String AddOutcome × CacheMap × List Request :=
  let (alreadyInPlaylist, cache, reqs1) :=
    isTrackInPlaylist env cache now fuel trackUri playlistId
  if alreadyInPlaylist then (.ok .alreadyPresent, cache, reqs1)
  else
    match env.addTracks playlistId trackUri with
    | .ok _ =>
      let (cache, reqs2) := addTrackToCache env cache now playlistId trackUri
      (.ok .added, cache, reqs1 ++ [.addTracks playlistId trackUri] ++ reqs2)
    | .error e =>
      if isDuplicateTrackError (some e) then
        let (cache, reqs2) := addTrackToCache env cache now playlistId trackUri
        (.ok .alreadyPresent, cache, reqs1 ++ [.addTracks playlistId trackUri] ++ reqs2)
      else if e.status = some 403
          || (match e.message with
              | some m => jsIncludes m "403" || jsIncludes m "Forbidden"
              | none => false) then
        (.error permissionErrorMessage, cache, reqs1 ++ [.addTracks playlistId trackUri])
      else
        (.error (genericErrorMessage playlistId e), cache,
          reqs1 ++ [.addTracks playlistId trackUri])

/-- Accumulator form of JS `Array.from(new Set(xs))`: keep each element
the first time it is seen. -/
def dedupFirstAux (seen : List String) : List String → List String
  | [] => []
  | x :: xs =>
      if seen.contains x then dedupFirstAux seen xs
      else x :: dedupFirstAux (x :: seen) xs

/-- JS `Array.from(new Set(xs))`: first occurrences, in order. -/
def dedupFirst (xs : List String) : List String :=
  dedupFirstAux [] xs

/-- The per-playlist loop of `addToPlaylists`.  The source runs the
playlists concurrently under `Promise.all`; their mutual-exclusion keys
are distinct (same track, different playlist), and each operation only
touches its own playlist's cache entry, so the sequential schedule
modelled here is a faithful serialization. -/
def runPlaylists (env : Env) (now : Nat) (fuel : Nat) (trackUri : String) :
    CacheMap → List String →
    CacheMap × List (String × Except String AddOutcome) × List Request
  | cache, [] => (cache, [], [])
  | cache, p :: rest =>
    let (res, cache', reqs1) := addToSinglePlaylist env cache now fuel trackUri p
    let (cache'', outs, reqs2) := runPlaylists env now fuel trackUri cache' rest
    (cache'', (p, res) :: outs, reqs1 ++ reqs2)

structure PlaylistAddResult where
  added : List String
  alreadyPresent : List String
  failed : List (String × String)
  likedStatus : LikedStatus
deriving DecidableEq, Repr

def invalidInputMessage1 : String := "Invalid track URI or empty playlist list"

def invalidInputMessage2 : String := "No valid playlist identifiers provided"

/-- The aggregate-failure message of `addToPlaylists`. -/
def aggregateErrorMessage (failed : List (String × String)) : String :=
  "Failed to add to all " ++ toString failed.length ++ " playlist(s): "
    ++ String.intercalate ", " (failed.map (fun f => f.2))

/-- `PlaylistManager.addToPlaylists`: input validation, the liked-songs
sub-step, the per-playlist additions, and aggregation.  Returns the
result (or thrown message), the final cache, and the issued requests in
order. -/
def addToPlaylists (env : Env) (cache : CacheMap) (now : Nat) (fuel : Nat)
    (trackUri : String) (playlistIds : List String) :
    Except String PlaylistAddResult × CacheMap × List Request :=
  if trackUri = "" ∨ playlistIds.isEmpty then
    (.error invalidInputMessage1, cache, [])
  else
    let uniquePlaylistIds := dedupFirst (playlistIds.filter (fun s => s ≠ ""))
    if uniquePlaylistIds.isEmpty then
      (.error invalidInputMessage2, cache, [])
    else
      let (likedStatus, reqsL) := addToLikedSongs env trackUri
      let (cache', outs, reqsP) := runPlaylists env now fuel trackUri cache uniquePlaylistIds
      let added := outs.filterMap
        (fun po => match po.2 with | .ok .added => some po.1 | _ => none)
      let alreadyPresent := outs.filterMap
        (fun po => match po.2 with | .ok .alreadyPresent => some po.1 | _ => none)
      let failed := outs.filterMap
        (fun po =>
          match po.2 with
          | .error m => some (po.1, if m = "" then "Unknown error" else m)
          | _ => none)
      if added.isEmpty ∧ alreadyPresent.isEmpty ∧ failed.length = uniquePlaylistIds.length then
        (.error (aggregateErrorMessage failed), cache', reqsL ++ reqsP)
      else
        (.ok (PlaylistAddResult.mk added alreadyPresent failed likedStatus), cache',
          reqsL ++ reqsP)

end PlaylistManager
namespace PlaylistManager

/-- Invariant of the `withTrackLock` machine, preserved by every step:
the map always stores the latest arrival; an absent map entry means the
latest arrival already finished; the captured `previous` of op `i` is op
`i - 1` (or already-settled); a started op's predecessors have all
finished. -/
def LockInv (st : LockTraceState) : Prop :=
  st.prevOf.length = st.nextArr
  ∧ (∀ j, st.pending = some j → j + 1 = st.nextArr)
  ∧ (st.pending = none → st.nextArr = 0 ∨ (st.nextArr - 1) ∈ st.finished)
  ∧ (∀ i pv, st.prevOf[i]? = some pv →
      (∀ j, pv = some j → j + 1 = i) ∧ (pv = none → i = 0 ∨ (i - 1) ∈ st.finished))
  ∧ (∀ i, i ∈ st.started → i < st.nextArr)
  ∧ (∀ i, i ∈ st.started → ∀ j, j < i → j ∈ st.finished)
  ∧ (∀ i, i ∈ st.finished → i ∈ st.started)
  ∧ (∀ i, i ∈ st.cleaned → i ∈ st.finished)

def isAddTracksReq : Request → Bool
  | .addTracks _ _ => true
  | _ => false

/-- Number of remote `add track` writes in a request trace. -/
def countAddTracks (reqs : List Request) : Nat :=
  (reqs.filter isAddTracksReq).length

def isPageFetchReq : Request → Bool
  | .pageFetch _ _ _ => true
  | _ => false

/-- A well-behaved remote: track metadata lookups fail (and are
ignored), every playlist page is empty with a reported total of 0,
writes succeed, nothing is liked yet. -/
def envAllOk : Env :=
  { trackLookup := fun _ => .error ⟨none, none, none, none, false, false, "lookup failed"⟩,
    page := fun _ _ => .ok ⟨some [], some 0⟩,
    addTracks := fun _ _ => .ok (),
    likedContains := fun _ => .ok (some [false]),
    likedPut := fun _ => .ok () }

/-- The `added` bucket selector of `addToPlaylists`. -/
def addedOf (outs : List (String × Except String AddOutcome)) : List String :=
  outs.filterMap (fun po => match po.2 with | .ok .added => some po.1 | _ => none)

/-- The `alreadyPresent` bucket selector of `addToPlaylists`. -/
def alreadyOf (outs : List (String × Except String AddOutcome)) : List String :=
  outs.filterMap (fun po => match po.2 with | .ok .alreadyPresent => some po.1 | _ => none)

/-- The `failed` bucket selector of `addToPlaylists`. -/
def failedOf (outs : List (String × Except String AddOutcome)) :
    List (String × String) :=
  outs.filterMap
    (fun po =>
      match po.2 with
      | .error m => some (po.1, if m = "" then "Unknown error" else m)
      | _ => none)

/-- The permission-error test of `addToSinglePlaylist`: status 403 or a
message mentioning `403` or `Forbidden`. -/
def isPermission403 (e : RemoteError) : Bool :=
  e.status = some 403
    || (match e.message with
        | some m => JsStr.jsIncludes m "403" || JsStr.jsIncludes m "Forbidden"
        | none => false)

/-- A remote duplicate-track error: status 409 with `duplicate` in the
message. -/
def dupErr : RemoteError :=
  { status := some 409, reason := none, bodyReason := none,
    message := some "Error adding tracks: duplicate", isErrorInstance := true,
    isSyntaxError := false, display := "duplicate" }

/-- An environment whose playlist write always reports the duplicate
conflict. -/
def envDup : Env :=
  { envAllOk with addTracks := fun _ _ => .error dupErr }

/-- Replace the liked sub-status of a structured result, leaving an
error untouched. -/
def withLikedStatus : Except String PlaylistAddResult → LikedStatus →
    Except String PlaylistAddResult
  | .error m, _ => .error m
  | .ok r, ls => .ok (PlaylistAddResult.mk r.added r.alreadyPresent r.failed ls)

/-- A thrown `SyntaxError`: the malformed-body error of a successful
liked-songs write. -/
def synErr : RemoteError :=
  { status := none, reason := none, bodyReason := none,
    message := some "Unexpected end of JSON input", isErrorInstance := true,
    isSyntaxError := true, display := "SyntaxError" }

/-- An environment whose liked-songs write throws a `SyntaxError`. -/
def envSyn : Env :=
  { envAllOk with likedPut := fun _ => .error synErr }

end PlaylistManager

namespace JsStr

theorem dropWhile_dropWhile (p : α → Bool) (l : List α) :
    (l.dropWhile p).dropWhile p = l.dropWhile p := by
  induction l with
  | nil => rfl
  | cons a t ih =>
    by_cases h : p a
    · simpa [List.dropWhile_cons, h] using ih
    · simp [List.dropWhile_cons, h]

theorem dropWhile_suffix (p : α → Bool) (l : List α) :
    l.dropWhile p <:+ l := by
  induction l with
  | nil => exact List.suffix_rfl
  | cons a t ih =>
    by_cases h : p a
    · rw [List.dropWhile_cons_of_pos h]
      exact ih.trans (List.suffix_cons a t)
    · rw [List.dropWhile_cons_of_neg h]

theorem trimChars_eq_self_of_trimmed {l : List Char} (h : Trimmed l) :
    trimChars l = l := by
  unfold trimChars
  rw [h.1, h.2, List.reverse_reverse]

theorem trimmed_trimChars (l : List Char) : Trimmed (trimChars l) := by
  unfold trimChars
  set m := l.dropWhile Char.isWhitespace with hm
  set r := m.reverse.dropWhile Char.isWhitespace with hr
  constructor
  · -- dropping whitespace from the front of r.reverse is a no-op:
    -- r.reverse is a prefix of m, and m starts with a non-whitespace char
    rcases hcase : r.reverse with _ | ⟨c, cs⟩
    · simp
    · have hmdrop : m.dropWhile Char.isWhitespace = m := by
        rw [hm]; exact dropWhile_dropWhile _ _
      have hsuffix : r <:+ m.reverse := by
        rw [hr]; exact dropWhile_suffix _ _
      have hpre : r.reverse <+: m := by
        have := hsuffix.reverse
        simpa using this
      have hc : c ∈ m.take 1 := by
        rcases hpre with ⟨t, ht⟩
        rw [hcase] at ht
        rw [← ht]
        simp
      have hmne : m ≠ [] := by
        intro hnil
        rw [hnil] at hc
        simp at hc
      rcases hme : m with _ | ⟨d, ds⟩
      · exact absurd hme hmne
      · have hcd : c = d := by
          rw [hme] at hc
          simpa using hc
        have hdneg : Char.isWhitespace d = false := by
          by_contra hws
          have hws' : Char.isWhitespace d = true := by
            revert hws
            cases Char.isWhitespace d <;> simp
          rw [hme, List.dropWhile_cons_of_pos hws'] at hmdrop
          have hlen₁ : (ds.dropWhile Char.isWhitespace).length = (d :: ds).length := by
            rw [hmdrop]
          have hlen₂ := (dropWhile_suffix Char.isWhitespace ds).length_le
          simp at hlen₁
          omega
        rw [hcd, List.dropWhile_cons_of_neg (by simp [hdneg])]
  · -- dropping whitespace from the front of (r.reverse).reverse = r is a no-op
    rw [List.reverse_reverse, hr]
    exact dropWhile_dropWhile _ _

theorem jsTrim_jsTrim (s : String) : jsTrim (jsTrim s) = jsTrim s := by
  unfold jsTrim
  exact congrArg String.mk (trimChars_eq_self_of_trimmed (trimmed_trimChars s.data))

theorem charOfNat_toNat (n : Nat) (h : n < 55296) : (Char.ofNat n).toNat = n := by
  unfold Char.ofNat
  split
  · rfl
  · next hbad => exact absurd (Or.inl (by omega)) hbad

theorem toUpper_toNat_of_lower (c : Char) (h : c.toNat ≥ 97 ∧ c.toNat ≤ 122) :
    c.toUpper.toNat = c.toNat - 32 := by
  unfold Char.toUpper
  rw [if_pos h]
  exact charOfNat_toNat _ (by omega)

theorem toUpper_toUpper (c : Char) : c.toUpper.toUpper = c.toUpper := by
  unfold Char.toUpper
  by_cases h : c.toNat ≥ 97 ∧ c.toNat ≤ 122
  · have hv : (Char.ofNat (c.toNat - 32)).toNat = c.toNat - 32 :=
      charOfNat_toNat _ (by omega)
    rw [if_pos h,
      if_neg (by omega :
        ¬((Char.ofNat (c.toNat - 32)).toNat ≥ 97 ∧ (Char.ofNat (c.toNat - 32)).toNat ≤ 122))]
  · rw [if_neg h, if_neg h]

theorem isWhitespace_false_of_toNat (c : Char) (h1 : 65 ≤ c.toNat) :
    c.isWhitespace = false := by
  simp only [Char.isWhitespace, Bool.or_eq_false_iff, decide_eq_false_iff_not]
  refine ⟨⟨⟨?_, ?_⟩, ?_⟩, ?_⟩ <;> intro h <;> subst h <;> exact absurd h1 (by decide)

theorem toUpper_isWhitespace (c : Char) :
    c.toUpper.isWhitespace = c.isWhitespace := by
  by_cases h : c.toNat ≥ 97 ∧ c.toNat ≤ 122
  · have hup := toUpper_toNat_of_lower c h
    rw [isWhitespace_false_of_toNat c.toUpper (by omega)]
    rw [isWhitespace_false_of_toNat c (by omega)]
  · unfold Char.toUpper
    rw [if_neg h]

theorem splitPlusAux_append_no_plus (l more acc : List Char)
    (h : '+' ∉ l) :
    splitPlusAux (l ++ more) acc = splitPlusAux more (l.reverse ++ acc) := by
  induction l generalizing acc with
  | nil => simp
  | cons c rest ih =>
    have hc : c ≠ '+' := fun hceq => h (hceq ▸ List.mem_cons_self c rest)
    have hrest : '+' ∉ rest := fun hmem => h (List.mem_cons_of_mem c hmem)
    simp only [List.cons_append, splitPlusAux, if_neg hc]
    change splitPlusAux (rest ++ more) (c :: acc) = _
    rw [ih _ hrest]
    simp

theorem splitPlus_joinPlus (ps : List String) (hne : ps ≠ [])
    (h : ∀ p ∈ ps, '+' ∉ p.data) :
    splitPlus (joinPlus ps) = ps := by
  induction ps with
  | nil => exact absurd rfl hne
  | cons p rest ih =>
    rcases rest with _ | ⟨q, rest'⟩
    · have hp : '+' ∉ p.data := h p (List.mem_cons_self p [])
      show (splitPlusAux (joinPlus [p]).data []).map (fun l => (⟨l⟩ : String)) = [p]
      have h1 : joinPlus [p] = p := rfl
      rw [h1]
      have h2 := splitPlusAux_append_no_plus p.data [] [] hp
      rw [List.append_nil] at h2
      rw [h2]
      simp [splitPlusAux]
    · have hp : '+' ∉ p.data := h p (List.mem_cons_self p _)
      have hrest : ∀ r ∈ q :: rest', '+' ∉ r.data :=
        fun r hr => h r (List.mem_cons_of_mem p hr)
      have hdata : (joinPlus (p :: q :: rest')).data
          = p.data ++ '+' :: (joinPlus (q :: rest')).data := by
        show (p ++ "+" ++ joinPlus (q :: rest')).data = _
        rw [String.data_append, String.data_append]
        simp
      unfold splitPlus
      rw [hdata, splitPlusAux_append_no_plus p.data _ [] hp]
      have hstep : splitPlusAux ('+' :: (joinPlus (q :: rest')).data) (p.data.reverse ++ [])
          = (p.data.reverse ++ []).reverse :: splitPlusAux (joinPlus (q :: rest')).data [] := by
        simp [splitPlusAux]
      rw [hstep]
      have ihr := ih (by simp) hrest
      unfold splitPlus at ihr
      simp only [List.map_cons, ihr, List.append_nil, List.reverse_reverse]

theorem splitPlus_ne_nil (s : String) : splitPlus s ≠ [] := by
  unfold splitPlus
  suffices hsuf : ∀ l acc, splitPlusAux l acc ≠ [] by
    intro hmap
    exact hsuf s.data [] (List.map_eq_nil_iff.mp hmap)
  intro l
  induction l with
  | nil => intro acc; simp [splitPlusAux]
  | cons c rest ih =>
    intro acc
    by_cases hc : c = '+'
    · simp [splitPlusAux, hc]
    · simp only [splitPlusAux, if_neg hc]
      exact ih _

theorem splitPlus_no_plus (s : String) : ∀ p ∈ splitPlus s, '+' ∉ p.data := by
  unfold splitPlus
  suffices hsuf : ∀ l acc, '+' ∉ acc → ∀ q ∈ splitPlusAux l acc, '+' ∉ q by
    intro p hp
    rw [List.mem_map] at hp
    obtain ⟨q, hq, hpq⟩ := hp
    rw [← hpq]
    exact hsuf s.data [] (by simp) q hq
  intro l
  induction l with
  | nil =>
    intro acc hacc q hq
    simp [splitPlusAux] at hq
    subst hq
    simpa using hacc
  | cons c rest ih =>
    intro acc hacc q hq
    by_cases hc : c = '+'
    · rw [hc] at hq
      rw [show splitPlusAux ('+' :: rest) acc = acc.reverse :: splitPlusAux rest []
        from by simp [splitPlusAux]] at hq
      rcases List.mem_cons.mp hq with hq1 | hq1
      · subst hq1; simpa using hacc
      · exact ih [] (by simp) q hq1
    · simp only [splitPlusAux, if_neg hc] at hq
      exact ih (c :: acc) (by simp [hacc, Ne.symm hc]) q hq

theorem trimChars_sublist (l : List Char) : (trimChars l).Sublist l := by
  unfold trimChars
  have h1 : (l.dropWhile Char.isWhitespace).Sublist l := (dropWhile_suffix _ l).sublist
  have h2 := (dropWhile_suffix Char.isWhitespace (l.dropWhile Char.isWhitespace).reverse).sublist
  have h3 := h2.reverse
  simp only [List.reverse_reverse] at h3
  exact h3.trans h1

theorem jsTrim_no_plus (p : String) (h : '+' ∉ p.data) : '+' ∉ (jsTrim p).data :=
  fun hmem => h ((trimChars_sublist p.data).mem hmem)

theorem mem_trimChars_of_not_ws {c : Char} {l : List Char}
    (hmem : c ∈ l) (hws : c.isWhitespace = false) : c ∈ trimChars l := by
  have step : ∀ (m : List Char), c ∈ m → c ∈ m.dropWhile Char.isWhitespace := by
    intro m hm
    have hsplit := List.takeWhile_append_dropWhile (p := Char.isWhitespace) (l := m)
    rw [← hsplit] at hm
    rcases List.mem_append.mp hm with htake | hdrop
    · have := List.mem_takeWhile_imp htake
      rw [hws] at this
      exact absurd this (by simp)
    · exact hdrop
  unfold trimChars
  rw [List.mem_reverse]
  exact step _ (by rw [List.mem_reverse]; exact step _ hmem)

theorem trimChars_singleton {c : Char} (hws : c.isWhitespace = false) :
    trimChars [c] = [c] := by
  unfold trimChars
  rw [List.dropWhile_cons_of_neg (by simp [hws])]
  simp [List.dropWhile_cons_of_neg (by simp [hws] : ¬(Char.isWhitespace c = true))]

theorem data_length_jsToLower (s : String) : (jsToLower s).data.length = s.data.length := by
  unfold jsToLower
  simp

theorem data_jsToUpper (s : String) : (jsToUpper s).data = s.data.map Char.toUpper := rfl

end JsStr
namespace HotkeyManager

open JsStr

theorem isModifierWord_length (s : String) (h : isModifierWord s = true) :
    3 ≤ s.data.length := by
  simp only [isModifierWord, Bool.or_eq_true, decide_eq_true_eq] at h
  rcases h with ((((((h | h) | h) | h) | h) | h) | h) <;> subst h <;> decide

theorem nm_default (x : String) (h : isModifierWord (jsToLower x) = false) :
    normalizeModifier x = normalizeKey x := by
  unfold normalizeModifier
  split
  all_goals
    first
    | rfl
    | (rename_i heq; rw [heq] at h; exact absurd h (by decide))

theorem nm_word_ctrl (x : String)
    (h : jsToLower x = "ctrl" ∨ jsToLower x = "control" ∨ jsToLower x = "cmd" ∨
      jsToLower x = "command") :
    normalizeModifier x = "Ctrl" := by
  unfold normalizeModifier
  rcases h with h | h | h | h <;> rw [h] <;> rfl

theorem nm_word_alt (x : String)
    (h : jsToLower x = "alt" ∨ jsToLower x = "option") :
    normalizeModifier x = "Alt" := by
  unfold normalizeModifier
  rcases h with h | h <;> rw [h] <;> rfl

theorem nm_word_shift (x : String) (h : jsToLower x = "shift") :
    normalizeModifier x = "Shift" := by
  unfold normalizeModifier
  rw [h]
  rfl

theorem singleton_not_ws_of_trimmed (c : Char) (h : trimChars [c] = [c]) :
    c.isWhitespace = false := by
  by_contra hws
  have hws' : c.isWhitespace = true := by
    revert hws; cases c.isWhitespace <;> simp
  unfold trimChars at h
  rw [List.dropWhile_cons_of_pos (by simp [hws'])] at h
  simp at h

theorem toUpper_eq_plus (c : Char) (h : c.toUpper = '+') : c = '+' := by
  by_cases hr : c.toNat ≥ 97 ∧ c.toNat ≤ 122
  · have := toUpper_toNat_of_lower c hr
    rw [h] at this
    have h43 : ('+').toNat = 43 := by decide
    omega
  · unfold Char.toUpper at h
    rw [if_neg hr] at h
    exact h

/-- The normalized parts produced by `normalizeModifier` are fixed points
of trimming and of renormalization, and contain no separator: this is
what makes `normalizeCombo` idempotent. -/
theorem normalizeModifier_output_fixed (x : String) (htrim : jsTrim x = x)
    (hplus : '+' ∉ x.data) :
    jsTrim (normalizeModifier x) = normalizeModifier x
    ∧ normalizeModifier (normalizeModifier x) = normalizeModifier x
    ∧ '+' ∉ (normalizeModifier x).data := by
  by_cases hw : isModifierWord (jsToLower x) = true
  · have hq : normalizeModifier x = "Ctrl" ∨ normalizeModifier x = "Alt" ∨
        normalizeModifier x = "Shift" := by
      simp only [isModifierWord, Bool.or_eq_true, decide_eq_true_eq] at hw
      rcases hw with ((((((h | h) | h) | h) | h) | h) | h)
      · exact Or.inl (nm_word_ctrl x (Or.inl h))
      · exact Or.inl (nm_word_ctrl x (Or.inr (Or.inl h)))
      · exact Or.inl (nm_word_ctrl x (Or.inr (Or.inr (Or.inl h))))
      · exact Or.inl (nm_word_ctrl x (Or.inr (Or.inr (Or.inr h))))
      · exact Or.inr (Or.inl (nm_word_alt x (Or.inl h)))
      · exact Or.inr (Or.inl (nm_word_alt x (Or.inr h)))
      · exact Or.inr (Or.inr (nm_word_shift x h))
    rcases hq with h | h | h <;> rw [h] <;> exact ⟨by decide, by decide, by decide⟩
  · have hw' : isModifierWord (jsToLower x) = false := by
      revert hw; cases isModifierWord (jsToLower x) <;> simp
    rw [nm_default x hw']
    by_cases hlen : x.data.length = 1
    · -- single character: normalizeKey upper-cases it
      obtain ⟨c, hc⟩ : ∃ c, x.data = [c] := by
        rcases hx : x.data with _ | ⟨c, _ | ⟨d, t⟩⟩
        · rw [hx] at hlen; simp at hlen
        · exact ⟨c, rfl⟩
        · rw [hx] at hlen; simp at hlen
      have hkey : normalizeKey x = jsToUpper x := by
        unfold normalizeKey
        rw [if_pos hlen]
      have hwsc : c.isWhitespace = false := by
        apply singleton_not_ws_of_trimmed
        have := congrArg String.data htrim
        unfold jsTrim at this
        simpa [hc] using this
      have hupdata : (jsToUpper x).data = [c.toUpper] := by
        rw [data_jsToUpper, hc]
        rfl
      refine hkey ▸ ⟨?_, ?_, ?_⟩
      · -- trimmed
        unfold jsTrim
        rw [hupdata, trimChars_singleton (by rw [toUpper_isWhitespace]; exact hwsc)]
        exact String.ext hupdata.symm
      · -- renormalization is the identity
        have hlen1 : (jsToUpper x).data.length = 1 := by rw [hupdata]; rfl
        have hw1 : isModifierWord (jsToLower (jsToUpper x)) = false := by
          by_contra hbad
          have hbad' : isModifierWord (jsToLower (jsToUpper x)) = true := by
            revert hbad; cases isModifierWord (jsToLower (jsToUpper x)) <;> simp
          have := isModifierWord_length _ hbad'
          rw [data_length_jsToLower, hlen1] at this
          omega
        rw [nm_default _ hw1]
        unfold normalizeKey
        rw [if_pos hlen1]
        apply String.ext
        simp only [data_jsToUpper, hc, hupdata]
        simp [toUpper_toUpper]
      · -- no separator
        rw [hupdata]
        intro hmem
        simp at hmem
        exact hplus (by rw [hc]; exact List.mem_singleton.mpr (toUpper_eq_plus c hmem.symm).symm)
    · -- length ≠ 1: keyMap lookup or the key itself
      cases hkm : keyMap x with
      | some v =>
        have hv : v = "Up" ∨ v = "Down" ∨ v = "Left" ∨ v = "Right" ∨ v = "Space" := by
          unfold keyMap at hkm
          split at hkm <;> simp at hkm <;> simp [hkm]
        have hkey : normalizeKey x = v := by
          unfold normalizeKey
          rw [if_neg hlen, hkm]
        rw [hkey]
        rcases hv with h | h | h | h | h <;> subst h <;> exact ⟨by decide, by decide, by decide⟩
      | none =>
        have hkey : normalizeKey x = x := by
          unfold normalizeKey
          rw [if_neg hlen, hkm]
        rw [hkey]
        refine ⟨htrim, ?_, hplus⟩
        rw [nm_default x hw', hkey]

theorem normalizeCombo_idem (combo : String) :
    normalizeCombo (normalizeCombo combo) = normalizeCombo combo := by
  unfold normalizeCombo
  set qs := (splitPlus combo).map (fun part => normalizeModifier (jsTrim part)) with hqs
  set sorted := List.insertionSort comboLE qs with hsortdef
  have hmem : ∀ q ∈ sorted, jsTrim q = q ∧ normalizeModifier q = q ∧ '+' ∉ q.data := by
    intro q hq
    have hq' : q ∈ qs := (List.perm_insertionSort comboLE qs).subset hq
    rw [hqs] at hq'
    obtain ⟨part, hpart, hpq⟩ := List.mem_map.mp hq'
    have hplus := jsTrim_no_plus part (splitPlus_no_plus combo part hpart)
    have := normalizeModifier_output_fixed (jsTrim part) (jsTrim_jsTrim part) hplus
    rw [hpq] at this
    exact this
  have hne : sorted ≠ [] := by
    intro hnil
    have hp := List.perm_insertionSort comboLE qs
    rw [← hsortdef, hnil] at hp
    have hqnil := hp.symm.eq_nil
    rw [hqs] at hqnil
    exact splitPlus_ne_nil combo (List.map_eq_nil_iff.mp hqnil)
  rw [splitPlus_joinPlus sorted hne (fun p hp => (hmem p hp).2.2)]
  have hmap : sorted.map (fun part => normalizeModifier (jsTrim part)) = sorted := by
    have h1 : sorted.map (fun part => normalizeModifier (jsTrim part)) = sorted.map id :=
      List.map_congr_left (fun q hq => by
        obtain ⟨h1, h2, _⟩ := hmem q hq
        show normalizeModifier (jsTrim q) = q
        rw [h1, h2])
    rw [h1, List.map_id]
  rw [hmap]
  apply congrArg joinPlus
  exact List.eq_of_perm_of_sorted (List.perm_insertionSort comboLE sorted)
    (List.sorted_insertionSort comboLE sorted)
    (hsortdef ▸ List.sorted_insertionSort comboLE qs)

theorem normalizeCombo_perm (l l' : List String) (hne : l ≠ [])
    (hplus : ∀ p ∈ l, '+' ∉ p.data) (hperm : l'.Perm l) :
    normalizeCombo (joinPlus l') = normalizeCombo (joinPlus l) := by
  have hne' : l' ≠ [] := by
    intro h
    rw [h] at hperm
    exact hne hperm.symm.eq_nil
  have hplus' : ∀ p ∈ l', '+' ∉ p.data := fun p hp => hplus p (hperm.subset hp)
  unfold normalizeCombo
  rw [splitPlus_joinPlus l hne hplus, splitPlus_joinPlus l' hne' hplus']
  apply congrArg joinPlus
  exact List.eq_of_perm_of_sorted
    ((List.perm_insertionSort comboLE _).trans
      ((hperm.map _).trans (List.perm_insertionSort comboLE _).symm))
    (List.sorted_insertionSort comboLE _)
    (List.sorted_insertionSort comboLE _)

theorem no_plus_of_lower_trim_eq (w s : String)
    (h : jsToLower (jsTrim w) = s) (hs : '+' ∉ s.data) : '+' ∉ w.data := by
  intro hmem
  apply hs
  rw [← h]
  show '+' ∈ ((jsTrim w).data.map Char.toLower)
  have h1 : '+' ∈ (jsTrim w).data :=
    mem_trimChars_of_not_ws hmem (by decide)
  have h2 : Char.toLower '+' = '+' := by decide
  exact h2 ▸ List.mem_map_of_mem Char.toLower h1

theorem modifierRank_of_length_one (K : String) (h : K.data.length = 1) :
    modifierRank K = 3 := by
  unfold modifierRank
  rw [if_neg (fun heq => by rw [heq] at h; simp at h),
    if_neg (fun heq => by rw [heq] at h; simp at h),
    if_neg (fun heq => by rw [heq] at h; simp at h)]

theorem normalizeCombo_canonical (c a s k : String) (parts : List String)
    (hc : IsCtrlWord c) (ha : IsAltWord a) (hs : IsShiftWord s)
    (hk1 : jsTrim k = k) (hk2 : k.data.length = 1) (hk3 : '+' ∉ k.data)
    (hperm : parts.Perm [c, a, s, k]) :
    normalizeCombo (joinPlus parts) = "Ctrl+Alt+Shift+" ++ jsToUpper k := by
  have hcp : '+' ∉ c.data := by
    rcases hc with h | h | h | h <;> exact no_plus_of_lower_trim_eq c _ h (by decide)
  have hap : '+' ∉ a.data := by
    rcases ha with h | h <;> exact no_plus_of_lower_trim_eq a _ h (by decide)
  have hsp : '+' ∉ s.data := no_plus_of_lower_trim_eq s _ hs (by decide)
  have hall : ∀ p ∈ [c, a, s, k], '+' ∉ p.data := by
    intro p hp
    simp only [List.mem_cons, List.not_mem_nil, or_false] at hp
    rcases hp with h | h | h | h <;> subst h <;> assumption
  rw [normalizeCombo_perm [c, a, s, k] parts (by simp) hall hperm]
  unfold normalizeCombo
  rw [splitPlus_joinPlus [c, a, s, k] (by simp) hall]
  have hK : normalizeModifier (jsTrim k) = jsToUpper k := by
    rw [hk1]
    have hw : isModifierWord (jsToLower k) = false := by
      by_contra hbad
      have hbad' : isModifierWord (jsToLower k) = true := by
        revert hbad; cases isModifierWord (jsToLower k) <;> simp
      have := isModifierWord_length _ hbad'
      rw [data_length_jsToLower, hk2] at this
      omega
    rw [nm_default k hw]
    unfold normalizeKey
    rw [if_pos hk2]
  have hmap : [c, a, s, k].map (fun part => normalizeModifier (jsTrim part))
      = ["Ctrl", "Alt", "Shift", jsToUpper k] := by
    simp only [List.map_cons, List.map_nil]
    rw [nm_word_ctrl (jsTrim c) (by
        rcases hc with h | h | h | h
        · exact Or.inl h
        · exact Or.inr (Or.inl h)
        · exact Or.inr (Or.inr (Or.inl h))
        · exact Or.inr (Or.inr (Or.inr h))),
      nm_word_alt (jsTrim a) ha, nm_word_shift (jsTrim s) hs, hK]
  rw [hmap]
  have hKlen : (jsToUpper k).data.length = 1 := by
    rw [data_jsToUpper, List.length_map]
    exact hk2
  have hrank := modifierRank_of_length_one (jsToUpper k) hKlen
  have hsorted : List.Sorted comboLE ["Ctrl", "Alt", "Shift", jsToUpper k] := by
    rw [List.sorted_cons]
    refine ⟨?_, ?_⟩
    · intro b hb
      simp only [List.mem_cons, List.not_mem_nil, or_false] at hb
      rcases hb with h | h | h <;> subst h
      · exact Or.inl (by decide)
      · exact Or.inl (by decide)
      · exact Or.inl (by rw [hrank]; decide)
    · rw [List.sorted_cons]
      refine ⟨?_, ?_⟩
      · intro b hb
        simp only [List.mem_cons, List.not_mem_nil, or_false] at hb
        rcases hb with h | h <;> subst h
        · exact Or.inl (by decide)
        · exact Or.inl (by rw [hrank]; decide)
      · rw [List.sorted_cons]
        refine ⟨?_, ?_⟩
        · intro b hb
          simp only [List.mem_cons, List.not_mem_nil, or_false] at hb
          subst hb
          exact Or.inl (by rw [hrank]; decide)
        · simp [List.sorted_cons]
  rw [List.eq_of_perm_of_sorted (List.perm_insertionSort comboLE _)
    (List.sorted_insertionSort comboLE _) hsorted]
  apply String.ext
  show ("Ctrl" ++ "+" ++ ("Alt" ++ "+" ++ ("Shift" ++ "+" ++ jsToUpper k))).data = _
  simp [String.data_append]

end HotkeyManager
section ClaimC9

open HotkeyManager

/-- C9: any transport error on the helper event stream closes and clears
the stream handle, resets the readiness and availability flags, discards
the bearer token, and restarts the fixed-interval retry loop; since the
token is discarded, the next `ensureHelper` can never short-circuit on a
stored session and always issues a fresh `/hello` handshake. -/
theorem C9_stream_error_disconnects :
    ∀ s : HelperState,
      (onHelperStreamError s).helperES = false
      ∧ (onHelperStreamError s).helperReady = false
      ∧ (onHelperStreamError s).helperAvailable = false
      ∧ (onHelperStreamError s).helperToken = none
      ∧ (onHelperStreamError s).retryTimerActive = true
      ∧ ∀ resp, (ensureHelper (onHelperStreamError s) resp).2.2 = true := by
  intro s
  unfold onHelperStreamError startHelperRetry
  by_cases h : s.retryTimerActive <;>
    simp [h, ensureHelper, tokenTruthy] <;>
    intro resp <;>
    cases resp with
    | error e => simp
    | ok r => by_cases hr : r.httpOk <;> simp [hr]

end ClaimC9
section ClaimC7

open HotkeyManager

/-- C7: with a combo registered for both dispatch paths, a second
trigger of the same combo — whether in-app or relayed by the helper
(both paths share the same `executionLocks` map) — arriving while the
lock is held and before its 500 ms auto-expiry is silently ignored, so
the callback runs exactly once; and because the lock auto-expires, a
trigger at or after 500 ms succeeds again even if the earlier callback
never settled (a throwing or hung callback cannot permanently wedge the
combo). -/
theorem runHotkeys_pair (regs : Registrations) (s : LockState) (e1 e2 : HEvent) :
    (runHotkeys regs s [e1, e2]).2
      = (stepHotkey regs s e1).2
        + (stepHotkey regs (stepHotkey regs s e1).1 e2).2 := by
  simp [runHotkeys]

theorem stepHotkey_keydown_fresh (regs : Registrations) (ev : KeyboardEvent) (t : Nat)
    (h : buildComboFromEvent ev ∈ regs.inApp) :
    stepHotkey regs initLockState (.keydown t ev)
      = (⟨[buildComboFromEvent ev], [(t + lockTimeout, buildComboFromEvent ev)]⟩, 1) := by
  simp [stepHotkey, fireTimers, initLockState, acquireLock, h]

theorem C7_per_combo_lock_debounce :
    (∀ (regs : Registrations) (ev : KeyboardEvent) (raw : String) (t1 t2 : Nat),
      buildComboFromEvent ev ∈ regs.inApp →
      normalizeCombo raw = buildComboFromEvent ev →
      buildComboFromEvent ev ∈ regs.global →
      t1 ≤ t2 → t2 < t1 + lockTimeout →
      (runHotkeys regs initLockState [.keydown t1 ev, .helperCombo t2 raw]).2 = 1)
    ∧ (∀ (regs : Registrations) (ev : KeyboardEvent) (t1 t2 : Nat),
      buildComboFromEvent ev ∈ regs.inApp →
      t1 + lockTimeout ≤ t2 →
      (runHotkeys regs initLockState [.keydown t1 ev, .keydown t2 ev]).2 = 2) := by
  constructor
  · intro regs ev raw t1 t2 h1 h2 h3 hle hlt
    have hdec : decide (t1 + lockTimeout ≤ t2) = false :=
      decide_eq_false (by omega)
    rw [runHotkeys_pair, stepHotkey_keydown_fresh regs ev t1 h1]
    have hstep2 :
        (stepHotkey regs
          ⟨[buildComboFromEvent ev], [(t1 + lockTimeout, buildComboFromEvent ev)]⟩
          (.helperCombo t2 raw)).2 = 0 := by
      simp [stepHotkey, fireTimers, acquireLock, h2, h3, hdec]
    rw [hstep2]
  · intro regs ev t1 t2 h1 hexp
    have hdec : decide (t1 + lockTimeout ≤ t2) = true := decide_eq_true hexp
    rw [runHotkeys_pair, stepHotkey_keydown_fresh regs ev t1 h1]
    have hstep2 :
        (stepHotkey regs
          ⟨[buildComboFromEvent ev], [(t1 + lockTimeout, buildComboFromEvent ev)]⟩
          (.keydown t2 ev)).2 = 1 := by
      simp [stepHotkey, fireTimers, acquireLock, h1, hdec]
    rw [hstep2]

/-- Witness for C7 at concrete inputs: a Ctrl+1 keydown at `t = 0`
followed by the helper relaying `CTRL+1` at `t = 300` fires once; two
Ctrl+1 keydowns 600 ms apart (with the callback never settling) fire
twice. -/
theorem C7_per_combo_lock_debounce_witness :
    (runHotkeys ⟨["Ctrl+1"], ["Ctrl+1"]⟩ initLockState
      [.keydown 0 ⟨true, false, false, false, "1"⟩, .helperCombo 300 "CTRL+1"]).2 = 1
    ∧ (runHotkeys ⟨["Ctrl+1"], ["Ctrl+1"]⟩ initLockState
      [.keydown 0 ⟨true, false, false, false, "1"⟩,
        .keydown 600 ⟨true, false, false, false, "1"⟩]).2 = 2 :=
  ⟨C7_per_combo_lock_debounce.1 ⟨["Ctrl+1"], ["Ctrl+1"]⟩ ⟨true, false, false, false, "1"⟩
      "CTRL+1" 0 300 (by decide) (by decide) (by decide) (by decide) (by decide),
    C7_per_combo_lock_debounce.2 ⟨["Ctrl+1"], ["Ctrl+1"]⟩ ⟨true, false, false, false, "1"⟩
      0 600 (by decide) (by decide)⟩

end ClaimC7
namespace PlaylistManager

theorem lockInv_init : LockInv lockInit := by
  unfold LockInv lockInit
  refine ⟨rfl, ?_, ?_, ?_, ?_, ?_, ?_, ?_⟩ <;> simp

theorem lockInv_step {st st' : LockTraceState} {e : LockEvent}
    (hinv : LockInv st) (hstep : lockStep st e = some st') : LockInv st' := by
  obtain ⟨h1, h2, h3, h4, h5, h6, h7, h8⟩ := hinv
  cases e with
  | arrive =>
    simp only [lockStep, Option.some.injEq] at hstep
    subst hstep
    refine ⟨by simp [h1], ?_, ?_, ?_, ?_, ?_, h7, h8⟩
    · intro j hj
      simp only [Option.some.injEq] at hj
      simp only []
      omega
    · intro hnone
      simp at hnone
    · intro i pv hget
      simp only [] at hget
      by_cases hi : i < st.prevOf.length
      · rw [List.getElem?_append_left hi] at hget
        exact h4 i pv hget
      · have hlen : i = st.prevOf.length := by
          rcases List.getElem?_eq_some.mp hget with ⟨hlt, _⟩
          simp only [List.length_append, List.length_cons, List.length_nil] at hlt
          omega
        subst hlen
        rw [List.getElem?_append_right (le_refl _)] at hget
        simp at hget
        subst hget
        constructor
        · intro j hj
          rw [h1]
          exact h2 j hj
        · intro hnone
          rw [h1]
          rcases h3 hnone with h | h
          · left; omega
          · right
            exact h
    · intro i hi
      simp only []
      have := h5 i hi
      omega
    · exact h6
  | start i =>
    simp only [lockStep] at hstep
    rcases hget : st.prevOf[i]? with _ | pv
    · rw [hget] at hstep; simp at hstep
    · rw [hget] at hstep
      by_cases hstarted : i ∈ st.started
      · simp [hstarted] at hstep
      · simp only [hstarted, if_false, ite_false] at hstep
        have hstep' : some { st with started := i :: st.started } = some st' := by
          rcases pv with _ | j
          · simpa using hstep
          · by_cases hfin : j ∈ st.finished
            · simpa [hfin] using hstep
            · simp [hfin] at hstep
        have hprev := h4 i _ hget
        injection hstep' with hstep'
        subst hstep'
        have hpred : i = 0 ∨ (i - 1) ∈ st.finished := by
          rcases pv with _ | j
          · exact hprev.2 rfl
          · right
            have hji : j + 1 = i := hprev.1 j rfl
            have hjfin : j ∈ st.finished := by
              by_contra hjf
              simp [hjf] at hstep
            have : j = i - 1 := by omega
            exact this ▸ hjfin
        refine ⟨h1, h2, h3, h4, ?_, ?_, ?_, h8⟩
        · intro i' hi'
          simp only [List.mem_cons] at hi'
          rcases hi' with h | h
          · subst h
            rcases List.getElem?_eq_some.mp hget with ⟨hlt, _⟩
            simp only []
            omega
          · exact h5 i' h
        · intro i' hi' j hj
          simp only [List.mem_cons] at hi'
          rcases hi' with h | h
          · subst h
            rcases hpred with h0 | hfin
            · omega
            · by_cases hji : j = i' - 1
              · exact hji ▸ hfin
              · have hjlt : j < i' - 1 := by omega
                have hstarted' : (i' - 1) ∈ st.started := h7 _ hfin
                exact h6 _ hstarted' j hjlt
          · exact h6 i' h j hj
        · intro i' hi'
          exact List.mem_cons_of_mem _ (h7 i' hi')
  | finish i =>
    simp only [lockStep] at hstep
    by_cases hguard : i ∈ st.started ∧ i ∉ st.finished
    · rw [if_pos hguard] at hstep
      injection hstep with hstep
      subst hstep
      refine ⟨h1, h2, ?_, ?_, h5, ?_, ?_, ?_⟩
      · intro hnone
        rcases h3 hnone with h | h
        · exact Or.inl h
        · exact Or.inr (List.mem_cons_of_mem _ h)
      · intro i' pv hget
        refine ⟨(h4 i' pv hget).1, ?_⟩
        intro hnone
        rcases (h4 i' pv hget).2 hnone with h | h
        · exact Or.inl h
        · exact Or.inr (List.mem_cons_of_mem _ h)
      · intro i' hi' j hj
        exact List.mem_cons_of_mem _ (h6 i' hi' j hj)
      · intro i' hi'
        simp only [List.mem_cons] at hi'
        rcases hi' with h | h
        · exact h ▸ hguard.1
        · exact h7 i' h
      · intro i' hi'
        exact List.mem_cons_of_mem _ (h8 i' hi')
    · rw [if_neg hguard] at hstep
      simp at hstep
  | cleanup i =>
    simp only [lockStep] at hstep
    by_cases hguard : i ∈ st.finished ∧ i ∉ st.cleaned
    · rw [if_pos hguard] at hstep
      injection hstep with hstep
      subst hstep
      refine ⟨h1, ?_, ?_, h4, h5, h6, h7, ?_⟩
      · intro j hj
        simp only at hj
        by_cases hpend : st.pending = some i
        · rw [if_pos hpend] at hj
          exact absurd hj (by simp)
        · rw [if_neg hpend] at hj
          exact h2 j hj
      · intro hnone
        simp only at hnone
        by_cases hpend : st.pending = some i
        · have := h2 i hpend
          right
          have : st.nextArr - 1 = i := by omega
          rw [this]
          exact hguard.1
        · rw [if_neg hpend] at hnone
          exact h3 hnone
      · intro i' hi'
        simp only [List.mem_cons] at hi'
        rcases hi' with h | h
        · exact h ▸ hguard.1
        · exact h8 i' h
    · rw [if_neg hguard] at hstep
      simp at hstep

theorem lockRun_inv : ∀ (es : List LockEvent) (st0 st : LockTraceState),
    LockInv st0 → lockRun st0 es = some st → LockInv st := by
  intro es
  induction es with
  | nil =>
    intro st0 st h0 hrun
    simp [lockRun] at hrun
    exact hrun ▸ h0
  | cons e es ih =>
    intro st0 st h0 hrun
    simp only [lockRun] at hrun
    rcases hstep : lockStep st0 e with _ | st1
    · rw [hstep] at hrun; simp at hrun
    · rw [hstep] at hrun
      exact ih st1 st (lockInv_step h0 hstep) hrun

theorem countAddTracks_append (r1 r2 : List Request) :
    countAddTracks (r1 ++ r2) = countAddTracks r1 + countAddTracks r2 := by
  unfold countAddTracks
  rw [List.filter_append, List.length_append]

theorem countAddTracks_eq_zero_of_forall {reqs : List Request}
    (h : ∀ r ∈ reqs, isAddTracksReq r = false) : countAddTracks reqs = 0 := by
  unfold countAddTracks
  rw [List.filter_eq_nil_iff.mpr (by intro r hr; simp [h r hr])]
  rfl

theorem getTrackIdCandidates_requests (env : Env) (uri : String) :
    ∀ r ∈ (getTrackIdCandidates env uri).2, ∃ id, r = Request.trackLookup id := by
  unfold getTrackIdCandidates
  by_cases hs : JsStr.jsStartsWith uri "spotify:track:"
  · simp only [hs, if_true]
    cases env.trackLookup (extractTrackId uri) <;>
      · intro r hr
        simp at hr
        exact ⟨_, hr⟩
  · simp [hs]

theorem countAddTracks_getTrackIdCandidates (env : Env) (uri : String) :
    countAddTracks (getTrackIdCandidates env uri).2 = 0 := by
  apply countAddTracks_eq_zero_of_forall
  intro r hr
  obtain ⟨id, hid⟩ := getTrackIdCandidates_requests env uri r hr
  subst hid
  rfl

theorem seqScanLoop_requests (env : Env) (pid : String) (cU cI : List String) :
    ∀ (fuel offset lastFetched : Nat) (acc : ScanAcc),
      (∀ r ∈ (match seqScanLoop env pid cU cI fuel offset lastFetched acc with
        | .found _ reqs => reqs
        | .done _ _ _ reqs => reqs), ∃ off, r = Request.pageFetch pid 100 off) := by
  intro fuel
  induction fuel with
  | zero => intro offset lastFetched acc; simp [seqScanLoop]
  | succ fuel ih =>
    intro offset lastFetched acc
    unfold seqScanLoop
    by_cases hl : lastFetched = 100
    · rw [if_pos hl]
      cases hpage : env.page pid offset with
      | error e => simp
      | ok page =>
        simp only []
        rcases hproc : processItems cU cI acc (page.items.getD []) with ⟨acc2, found⟩
        simp only [hproc]
        cases found with
        | true => simp
        | false =>
          simp only [Bool.false_eq_true, if_false]
          by_cases hshort : (page.items.getD []).length < 100
          · rw [if_pos hshort]
            simp
          · rw [if_neg hshort]
            have hrec := ih (offset + (page.items.getD []).length)
              (page.items.getD []).length acc2
            rcases hout : seqScanLoop env pid cU cI fuel
                (offset + (page.items.getD []).length) (page.items.getD []).length acc2 with
              ⟨acc3, reqs3⟩ | ⟨c, lf, acc3, reqs3⟩ <;>
              rw [hout] at hrec <;>
              simp only [hout] <;>
              intro r hr <;>
              simp only [List.mem_cons] at hr <;>
              rcases hr with hr | hr
            · exact ⟨offset, hr⟩
            · exact hrec r hr
            · exact ⟨offset, hr⟩
            · exact hrec r hr
    · rw [if_neg hl]
      simp

theorem workerScanLoop_requests (env : Env) (pid : String) (cU cI : List String) :
    ∀ (offsets : List Nat) (alive : Nat) (acc : ScanAcc) (err : Bool),
      ∀ r ∈ (workerScanLoop env pid cU cI offsets alive acc err).2.2.2,
        ∃ off, r = Request.pageFetch pid 100 off := by
  intro offsets
  induction offsets with
  | nil => intro alive acc err; simp [workerScanLoop]
  | cons off rest ih =>
    intro alive acc err
    unfold workerScanLoop
    cases hpage : env.page pid off with
    | error e =>
      by_cases halive : alive ≤ 1
      · rw [if_pos halive]
        simp
      · rw [if_neg halive]
        intro r hr
        simp only [List.mem_cons] at hr
        rcases hr with hr | hr
        · exact ⟨off, hr⟩
        · exact ih (alive - 1) acc true r hr
    | ok page =>
      simp only []
      rcases hproc : processItems cU cI acc (page.items.getD []) with ⟨acc2, found⟩
      simp only [hproc]
      cases found with
      | true => simp
      | false =>
        simp only [Bool.false_eq_true, if_false]
        intro r hr
        simp only [List.mem_cons] at hr
        rcases hr with hr | hr
        · exact ⟨off, hr⟩
        · exact ih alive acc2 err r hr

theorem scanPlaylistForTrack_requests (env : Env) (cache : CacheMap) (now fuel : Nat)
    (pid : String) (cU cI : List String) :
    ∀ r ∈ (scanPlaylistForTrack env cache now fuel pid cU cI).2.2,
      ∃ off, r = Request.pageFetch pid 100 off := by
  unfold scanPlaylistForTrack
  cases hpage : env.page pid 0 with
  | error e => simp
  | ok response =>
    simp only []
    rcases hproc : processItems cU cI ⟨[], []⟩ (response.items.getD []) with ⟨acc1, found1⟩
    simp only [hproc]
    cases found1 with
    | true => simp
    | false =>
      simp only [Bool.false_eq_true, if_false]
      split
      · -- total unavailable: sequential loop
        have hrec := seqScanLoop_requests env pid cU cI fuel
          (response.items.getD []).length (response.items.getD []).length acc1
        split <;> rename_i hout <;> rw [hout] at hrec
        · intro r hr
          simp only [List.mem_append, List.mem_singleton] at hr
          rcases hr with hr | hr
          · exact ⟨0, hr⟩
          · exact hrec r hr
        · split <;>
            intro r hr <;>
            simp only [List.mem_append, List.mem_singleton] at hr <;>
            rcases hr with hr | hr
          · exact ⟨0, hr⟩
          · exact hrec r hr
          · exact ⟨0, hr⟩
          · exact hrec r hr
      · -- total available: worker pool
        rename_i total htot
        split
        · simp
        · have hrec := workerScanLoop_requests env pid cU cI (remainingOffsetsList 100 total)
            (min 5 (remainingOffsetsList 100 total).length) acc1 false
          split <;>
            [skip;
             split] <;>
            intro r hr <;>
            simp only [List.mem_append, List.mem_singleton] at hr <;>
            rcases hr with hr | hr <;>
            first
            | exact ⟨0, hr⟩
            | exact hrec r hr

theorem countAddTracks_scan (env : Env) (cache : CacheMap) (now fuel : Nat)
    (pid : String) (cU cI : List String) :
    countAddTracks (scanPlaylistForTrack env cache now fuel pid cU cI).2.2 = 0 := by
  apply countAddTracks_eq_zero_of_forall
  intro r hr
  obtain ⟨off, hoff⟩ := scanPlaylistForTrack_requests env cache now fuel pid cU cI r hr
  subst hoff
  rfl

theorem countAddTracks_isTrackInPlaylist (env : Env) (cache : CacheMap) (now fuel : Nat)
    (uri pid : String) :
    countAddTracks (isTrackInPlaylist env cache now fuel uri pid).2.2 = 0 := by
  unfold isTrackInPlaylist
  rcases hc : getTrackIdCandidates env uri with ⟨⟨ids, uris⟩, reqs1⟩
  have hr1 : countAddTracks reqs1 = 0 := by
    have := countAddTracks_getTrackIdCandidates env uri
    rw [hc] at this
    exact this
  simp only [hc]
  rcases hfresh : getFreshPlaylistTrackCache cache now pid with ⟨entryOpt, cache2⟩
  simp only []
  cases entryOpt with
  | some entry =>
    by_cases hhit : cacheHasCandidate entry (setAdd uris uri) ids
    · simp [hhit, hr1]
    · simp only [hhit, Bool.false_eq_true, if_false]
      by_cases hcomp : entry.complete
      · simp [hcomp, hr1]
      · simp only [hcomp, Bool.false_eq_true, if_false]
        rw [countAddTracks_append, hr1, countAddTracks_scan]
  | none =>
    simp only []
    rw [countAddTracks_append, hr1, countAddTracks_scan]

theorem countAddTracks_addTrackToCache (env : Env) (cache : CacheMap) (now : Nat)
    (pid uri : String) :
    countAddTracks (addTrackToCache env cache now pid uri).2 = 0 := by
  unfold addTrackToCache
  rcases hc : getTrackIdCandidates env uri with ⟨⟨ids, uris⟩, reqs⟩
  have := countAddTracks_getTrackIdCandidates env uri
  rw [hc] at this
  simpa using this

/-- At most one remote `add track` write per `addToSinglePlaylist`
call. -/
theorem countAddTracks_addToSinglePlaylist_le (env : Env) (cache : CacheMap)
    (now fuel : Nat) (uri pid : String) :
    countAddTracks (addToSinglePlaylist env cache now fuel uri pid).2.2 ≤ 1 := by
  unfold addToSinglePlaylist
  generalize hm : isTrackInPlaylist env cache now fuel uri pid = res
  obtain ⟨inPl, cacheA, r1⟩ := res
  dsimp only
  have hr1 : countAddTracks r1 = 0 := by
    have h0 := countAddTracks_isTrackInPlaylist env cache now fuel uri pid
    rw [hm] at h0
    exact h0
  have hone : ∀ r2 : List Request, countAddTracks r2 = 0 →
      countAddTracks (r1 ++ [Request.addTracks pid uri] ++ r2) ≤ 1 := by
    intro r2 hr2
    rw [countAddTracks_append, countAddTracks_append, hr1, hr2]
    simp [countAddTracks, isAddTracksReq]
  have honeShort : countAddTracks (r1 ++ [Request.addTracks pid uri]) ≤ 1 := by
    rw [countAddTracks_append, hr1]
    simp [countAddTracks, isAddTracksReq]
  cases inPl with
  | true =>
    rw [if_pos rfl]
    show countAddTracks r1 ≤ 1
    rw [hr1]
    decide
  | false =>
    rw [if_neg (by decide : ¬ (false = true))]
    cases hadd : env.addTracks pid uri with
    | ok u =>
      dsimp only
      generalize hatc : addTrackToCache env cacheA now pid uri = resB
      obtain ⟨cacheB, r2⟩ := resB
      have hr2 : countAddTracks r2 = 0 := by
        have h0 := countAddTracks_addTrackToCache env cacheA now pid uri
        rw [hatc] at h0
        exact h0
      exact hone r2 hr2
    | error e =>
      dsimp only
      by_cases hdup : isDuplicateTrackError (some e)
      · rw [if_pos hdup]
        generalize hatc : addTrackToCache env cacheA now pid uri = resB
        obtain ⟨cacheB, r2⟩ := resB
        have hr2 : countAddTracks r2 = 0 := by
          have h0 := countAddTracks_addTrackToCache env cacheA now pid uri
          rw [hatc] at h0
          exact h0
        exact hone r2 hr2
      · rw [if_neg hdup]
        split
        · exact honeShort
        · exact honeShort

theorem mem_setAdd_self (l : List String) (x : String) : x ∈ setAdd l x := by
  unfold setAdd
  by_cases h : l.contains x
  · rw [if_pos h]
    exact List.mem_of_elem_eq_true h
  · rw [if_neg h]
    simp

theorem mem_setAdd_of_mem {l : List String} {y : String} (x : String) (h : y ∈ l) :
    y ∈ setAdd l x := by
  unfold setAdd
  by_cases hc : l.contains x
  · rw [if_pos hc]; exact h
  · rw [if_neg hc]; exact List.mem_append_left _ h

theorem mem_setAddNonempty_left {l xs : List String} {y : String} (h : y ∈ l) :
    y ∈ setAddNonempty l xs := by
  induction xs generalizing l with
  | nil => exact h
  | cons x xs ih =>
    unfold setAddNonempty
    simp only [List.foldl_cons]
    by_cases hx : x = ""
    · rw [if_pos hx]
      exact ih h
    · rw [if_neg hx]
      exact ih (mem_setAdd_of_mem x h)

theorem mem_setAddNonempty {l xs : List String} {x : String} (h : x ∈ xs) (hne : x ≠ "") :
    x ∈ setAddNonempty l xs := by
  induction xs generalizing l with
  | nil => simp at h
  | cons z xs ih =>
    unfold setAddNonempty
    simp only [List.foldl_cons]
    rcases List.mem_cons.mp h with hz | hz
    · subst hz
      rw [if_neg hne]
      exact mem_setAddNonempty_left (mem_setAdd_self l x)
    · by_cases hzz : z = ""
      · rw [if_pos hzz]
        exact ih hz
      · rw [if_neg hzz]
        exact ih hz

theorem CacheMap.set_self (m : CacheMap) (k : String) (e : PlaylistTrackCacheEntry) :
    (m.set k e) k = some e := by
  unfold CacheMap.set
  rw [if_pos rfl]

theorem updatePlaylistCacheWithTrack_self (cache : CacheMap) (now : Nat) (pid : String)
    (uris ids : List String) (c : Bool) :
    ∃ entry, (updatePlaylistCacheWithTrack cache now pid uris ids c) pid = some entry
      ∧ entry.timestamp = now ∧ (∀ x ∈ uris, x ≠ "" → x ∈ entry.uris) := by
  unfold updatePlaylistCacheWithTrack
  refine ⟨_, CacheMap.set_self _ _ _, rfl, ?_⟩
  intro x hx hne
  exact mem_setAddNonempty hx hne

theorem addTrackToCache_self (env : Env) (cache : CacheMap) (now : Nat)
    (pid uri : String) (h : uri ≠ "") :
    ∃ entry, (addTrackToCache env cache now pid uri).1 pid = some entry
      ∧ entry.timestamp = now ∧ uri ∈ entry.uris := by
  unfold addTrackToCache
  generalize hc : getTrackIdCandidates env uri = resC
  obtain ⟨⟨ids, uris⟩, reqs⟩ := resC
  dsimp only
  obtain ⟨entry, hset, hts, hmem⟩ :=
    updatePlaylistCacheWithTrack_self cache now pid (setAdd uris uri) ids false
  exact ⟨entry, hset, hts, hmem uri (mem_setAdd_self uris uri) h⟩

/-- When a fresh cache entry for the playlist already records the track
URI, the membership check answers from the cache: no scan, no write,
only the candidate lookup. -/
theorem isTrackInPlaylist_cache_hit (env : Env) (cache : CacheMap) (now fuel : Nat)
    (uri pid : String) (entry : PlaylistTrackCacheEntry)
    (hentry : cache pid = some entry)
    (hfresh : ¬ (now - entry.timestamp > playlistTrackCacheTTL))
    (hmem : uri ∈ entry.uris) :
    isTrackInPlaylist env cache now fuel uri pid
      = (true, cache, (getTrackIdCandidates env uri).2) := by
  unfold isTrackInPlaylist
  generalize hc : getTrackIdCandidates env uri = resC
  obtain ⟨⟨ids, uris⟩, reqs1⟩ := resC
  dsimp only
  have hget : getFreshPlaylistTrackCache cache now pid = (some entry, cache) := by
    unfold getFreshPlaylistTrackCache
    rw [hentry]
    dsimp only
    rw [if_neg hfresh]
  rw [hget]
  dsimp only
  have hhit : cacheHasCandidate entry (setAdd uris uri) ids = true := by
    unfold cacheHasCandidate
    have hany : (setAdd uris uri).any (fun u => entry.uris.contains u) = true :=
      List.any_eq_true.mpr
        ⟨uri, mem_setAdd_self uris uri, List.elem_eq_true_of_mem hmem⟩
    rw [hany]
    rfl
  rw [if_pos hhit]

/-- After a fresh cache hit on the track URI, the whole single-playlist
addition short-circuits to `already-present` with no write. -/
theorem addToSinglePlaylist_cache_hit (env : Env) (cache : CacheMap) (now fuel : Nat)
    (uri pid : String) (entry : PlaylistTrackCacheEntry)
    (hentry : cache pid = some entry)
    (hfresh : ¬ (now - entry.timestamp > playlistTrackCacheTTL))
    (hmem : uri ∈ entry.uris) :
    addToSinglePlaylist env cache now fuel uri pid
      = (.ok .alreadyPresent, cache, (getTrackIdCandidates env uri).2) := by
  unfold addToSinglePlaylist
  rw [isTrackInPlaylist_cache_hit env cache now fuel uri pid entry hentry hfresh hmem]
  rfl

/-- Any successful `addToSinglePlaylist` either issued no write at all
(the membership resolution already answered) or left a cache entry,
stamped with its own clock, recording the track URI. -/
theorem addToSinglePlaylist_ok_cases (env : Env) (cache : CacheMap) (now fuel : Nat)
    (uri pid : String) (o : AddOutcome) (cache1 : CacheMap) (reqs1 : List Request)
    (hne : uri ≠ "")
    (h : addToSinglePlaylist env cache now fuel uri pid = (.ok o, cache1, reqs1)) :
    countAddTracks reqs1 = 0
    ∨ ∃ entry, cache1 pid = some entry ∧ entry.timestamp = now ∧ uri ∈ entry.uris := by
  unfold addToSinglePlaylist at h
  generalize hm : isTrackInPlaylist env cache now fuel uri pid = res at h
  obtain ⟨inPl, cacheA, r1⟩ := res
  dsimp only at h
  have hr1 : countAddTracks r1 = 0 := by
    have h0 := countAddTracks_isTrackInPlaylist env cache now fuel uri pid
    rw [hm] at h0
    exact h0
  cases inPl with
  | true =>
    rw [if_pos rfl] at h
    simp only [Prod.mk.injEq] at h
    obtain ⟨-, -, hreqs⟩ := h
    left
    rw [← hreqs]
    exact hr1
  | false =>
    rw [if_neg (by decide : ¬ (false = true))] at h
    cases hadd : env.addTracks pid uri with
    | ok u =>
      rw [hadd] at h
      dsimp only at h
      simp only [Prod.mk.injEq] at h
      obtain ⟨-, hcache, -⟩ := h
      right
      rw [← hcache]
      exact addTrackToCache_self env cacheA now pid uri hne
    | error e =>
      rw [hadd] at h
      dsimp only at h
      by_cases hdup : isDuplicateTrackError (some e)
      · rw [if_pos hdup] at h
        simp only [Prod.mk.injEq] at h
        obtain ⟨-, hcache, -⟩ := h
        right
        rw [← hcache]
        exact addTrackToCache_self env cacheA now pid uri hne
      · rw [if_neg hdup] at h
        split at h <;> simp only [Prod.mk.injEq] at h <;> exact absurd h.1 (by simp)

end PlaylistManager
section ClaimC1

open PlaylistManager

/-- C1: the per-(playlistId, trackUri) token of `withTrackLock`
serializes operations on the same pair.  (1) In every schedulable trace
of the promise chain, an operation can only have started once every
earlier-arriving operation for the key has finished — strictly
one-at-a-time, in arrival order.  (2) An operation's `finally` deletes
the pending token exactly when no newer request arrived and was queued
behind it (or the token was already gone).  (3) Consequently two
operations for the same pair run one after the other, and if the first
settles successfully within the cache TTL, the two together issue at
most one remote `add track` write. -/
theorem C1_track_lock_serializes :
    (∀ (es : List LockEvent) (st : LockTraceState),
      lockRun lockInit es = some st →
      ∀ i, i ∈ st.started → ∀ j, j < i → j ∈ st.finished)
    ∧ (∀ (es : List LockEvent) (st st' : LockTraceState) (i : Nat),
      lockRun lockInit es = some st →
      lockStep st (.cleanup i) = some st' →
      (st'.pending = none ↔ (st.pending = none ∨ st.nextArr = i + 1)))
    ∧ (∀ (env : Env) (cache : CacheMap) (now1 now2 fuel : Nat) (uri pid : String)
        (o : AddOutcome) (cache1 : CacheMap) (reqs1 : List Request),
      uri ≠ "" →
      addToSinglePlaylist env cache now1 fuel uri pid = (.ok o, cache1, reqs1) →
      now2 - now1 ≤ playlistTrackCacheTTL →
      countAddTracks reqs1
        + countAddTracks (addToSinglePlaylist env cache1 now2 fuel uri pid).2.2 ≤ 1) := by
  refine ⟨?_, ?_, ?_⟩
  · intro es st hrun i hi j hj
    exact (lockRun_inv es lockInit st lockInv_init hrun).2.2.2.2.2.1 i hi j hj
  · intro es st st' i hrun hstep
    have hinv := lockRun_inv es lockInit st lockInv_init hrun
    have h2 := hinv.2.1
    simp only [lockStep] at hstep
    by_cases hguard : i ∈ st.finished ∧ i ∉ st.cleaned
    · rw [if_pos hguard] at hstep
      injection hstep with hstep
      subst hstep
      simp only []
      by_cases hpend : st.pending = some i
      · rw [if_pos hpend]
        have := h2 i hpend
        constructor
        · intro _
          right
          omega
        · intro _
          rfl
      · rw [if_neg hpend]
        rcases hp : st.pending with _ | j
        · simp
        · constructor
          · intro hc
            exact absurd hc (by simp)
          · intro hor
            rcases hor with hnone | harr
            · exact absurd hnone (by simp)
            · have hj := h2 j hp
              have : j = i := by omega
              rw [this] at hp
              exact absurd hp hpend
    · rw [if_neg hguard] at hstep
      simp at hstep
  · intro env cache now1 now2 fuel uri pid o cache1 reqs1 hne h hdt
    rcases addToSinglePlaylist_ok_cases env cache now1 fuel uri pid o cache1 reqs1 hne h with
      hzero | ⟨entry, hentry, hts, hmem⟩
    · rw [hzero]
      have := countAddTracks_addToSinglePlaylist_le env cache1 now2 fuel uri pid
      omega
    · have hfresh : ¬ (now2 - entry.timestamp > playlistTrackCacheTTL) := by
        rw [hts]
        omega
      rw [addToSinglePlaylist_cache_hit env cache1 now2 fuel uri pid entry hentry hfresh hmem]
      have hc2 : countAddTracks (getTrackIdCandidates env uri).2 = 0 :=
        countAddTracks_getTrackIdCandidates env uri
      have hle := countAddTracks_addToSinglePlaylist_le env cache now1 fuel uri pid
      rw [h] at hle
      dsimp only at hle ⊢
      rw [hc2]
      omega

end ClaimC1
section ClaimC1Witness

open PlaylistManager

/-- Witness for C1 at concrete inputs: a two-operation trace (the second
arriving while the first is pending) in which operation 1 started only
after operation 0 finished; a concrete cleanup step whose deletion
happens because no newer request is queued; and a concrete pair of
back-to-back additions issuing exactly one remote write in total. -/
theorem C1_track_lock_serializes_witness :
    (0 ∈ (⟨2, none, [none, some 0], [1, 0], [1, 0], [1, 0]⟩ : LockTraceState).finished)
    ∧ ((⟨2, none, [none, some 0], [1, 0], [1, 0], [1, 0]⟩ : LockTraceState).pending = none
      ↔ ((⟨2, some 1, [none, some 0], [1, 0], [1, 0], [0]⟩ : LockTraceState).pending = none
        ∨ (⟨2, some 1, [none, some 0], [1, 0], [1, 0], [0]⟩ : LockTraceState).nextArr = 1 + 1))
    ∧ countAddTracks (addToSinglePlaylist envAllOk emptyCache 0 10 "spotify:track:ABC" "P1").2.2
      + countAddTracks
          (addToSinglePlaylist envAllOk
            (addToSinglePlaylist envAllOk emptyCache 0 10 "spotify:track:ABC" "P1").2.1
            50 10 "spotify:track:ABC" "P1").2.2 ≤ 1 := by
  refine ⟨?_, ?_, ?_⟩
  · exact C1_track_lock_serializes.1
      [.arrive, .start 0, .finish 0, .arrive, .cleanup 0, .start 1, .finish 1, .cleanup 1]
      ⟨2, none, [none, some 0], [1, 0], [1, 0], [1, 0]⟩ (by decide) 1 (by decide) 0 (by decide)
  · exact C1_track_lock_serializes.2.1
      [.arrive, .start 0, .finish 0, .arrive, .cleanup 0, .start 1, .finish 1]
      ⟨2, some 1, [none, some 0], [1, 0], [1, 0], [0]⟩
      ⟨2, none, [none, some 0], [1, 0], [1, 0], [1, 0]⟩ 1 (by decide) (by decide)
  · exact C1_track_lock_serializes.2.2 envAllOk emptyCache 0 50 10 "spotify:track:ABC" "P1"
      .added (addToSinglePlaylist envAllOk emptyCache 0 10 "spotify:track:ABC" "P1").2.1
      (addToSinglePlaylist envAllOk emptyCache 0 10 "spotify:track:ABC" "P1").2.2
      (by decide) rfl (by decide)

end ClaimC1Witness
section ClaimC8

open JsStr HotkeyManager

/-- C8: combo normalization is a pure function (it is a function of its
input alone), idempotent, and order-independent over modifiers:
(1) normalizing an already-normalized combo yields the same string;
(2) permuting the `+`-separated parts of a combo never changes the
normalized result; (3) any permutation of any phrasing variants of
Ctrl (`ctrl`/`control`/`cmd`/`command` in any letter case), Alt
(`alt`/`option`), Shift, and a single-character key normalizes to the
canonical string with modifiers in the fixed order Ctrl, Alt, Shift
followed by the upper-cased key. -/
theorem C8_combo_normalization :
    (∀ combo : String, normalizeCombo (normalizeCombo combo) = normalizeCombo combo)
    ∧ (∀ l l' : List String, l ≠ [] → (∀ p ∈ l, '+' ∉ p.data) → l'.Perm l →
      normalizeCombo (joinPlus l') = normalizeCombo (joinPlus l))
    ∧ (∀ c a s k : String, ∀ parts : List String,
      IsCtrlWord c → IsAltWord a → IsShiftWord s →
      jsTrim k = k → k.data.length = 1 → '+' ∉ k.data →
      parts.Perm [c, a, s, k] →
      normalizeCombo (joinPlus parts) = "Ctrl+Alt+Shift+" ++ jsToUpper k) :=
  ⟨normalizeCombo_idem,
    normalizeCombo_perm,
    fun c a s k parts hc ha hs hk1 hk2 hk3 hperm =>
      normalizeCombo_canonical c a s k parts hc ha hs hk1 hk2 hk3 hperm⟩

/-- Witness for C8 at concrete inputs: `"1+alt+SHIFT+Control"`(as parts)
normalizes to `"Ctrl+Alt+Shift+1"`, and normalization is idempotent on
`"ctrl+alt+1"`. -/
theorem C8_combo_normalization_witness :
    (IsCtrlWord "Control" ∧ IsAltWord "alt" ∧ IsShiftWord "SHIFT")
    ∧ normalizeCombo (joinPlus ["1", "alt", "SHIFT", "Control"])
        = "Ctrl+Alt+Shift+" ++ jsToUpper "1"
    ∧ normalizeCombo (normalizeCombo "ctrl+alt+1") = normalizeCombo "ctrl+alt+1" :=
  ⟨⟨by decide, by decide, by decide⟩,
    C8_combo_normalization.2.2 "Control" "alt" "SHIFT" "1" ["1", "alt", "SHIFT", "Control"]
      (by decide) (by decide) (by decide) (by decide) (by decide) (by decide) (by decide),
    C8_combo_normalization.1 "ctrl+alt+1"⟩

end ClaimC8
section ClaimC2

open PlaylistManager

/-- C2 counterexample: with a fresh, complete and empty membership cache
entry for playlist `P1`, the membership query for the canonical track
URI `spotify:track:ABC` does return `false` — but it is not free of
remote calls: `getTrackIdCandidates` issues a `GET /v1/tracks/ABC`
metadata lookup before the cache is even consulted, so the claim
"returns absent without issuing any remote call" is false at this
input. -/
theorem C2_fresh_complete_counterexample :
    (isTrackInPlaylist envAllOk
      (CacheMap.set emptyCache "P1" ⟨[], [], 0, true⟩) 1000 10
      "spotify:track:ABC" "P1").1 = false
    ∧ (isTrackInPlaylist envAllOk
      (CacheMap.set emptyCache "P1" ⟨[], [], 0, true⟩) 1000 10
      "spotify:track:ABC" "P1").2.2 = [Request.trackLookup "ABC"] := by
  constructor <;> rfl

/-- C2 as amended: with a fresh cache entry marked complete and no
candidate hit, the membership query returns `false` and issues no
playlist-scan page fetch and no write — every request in its trace is a
track-metadata candidate lookup (which occurs only for canonical
`spotify:track:` URIs). -/
theorem C2_fresh_complete_no_scan :
    ∀ (env : Env) (cache : CacheMap) (now fuel : Nat) (uri pid : String)
      (entry : PlaylistTrackCacheEntry) (cache2 : CacheMap),
      getFreshPlaylistTrackCache cache now pid = (some entry, cache2) →
      entry.complete = true →
      cacheHasCandidate entry (setAdd (getTrackIdCandidates env uri).1.2 uri)
        (getTrackIdCandidates env uri).1.1 = false →
      (isTrackInPlaylist env cache now fuel uri pid).1 = false
      ∧ ∀ r ∈ (isTrackInPlaylist env cache now fuel uri pid).2.2,
          ∃ id, r = Request.trackLookup id := by
  intro env cache now fuel uri pid entry cache2 hget hcomp hmiss
  have hreq := getTrackIdCandidates_requests env uri
  unfold isTrackInPlaylist
  generalize hc : getTrackIdCandidates env uri = resC at hmiss hreq
  obtain ⟨⟨ids, uris⟩, reqs1⟩ := resC
  dsimp only
  dsimp only at hmiss
  rw [hget]
  dsimp only
  rw [hmiss]
  rw [if_neg (by decide : ¬ (false = true)), hcomp, if_pos rfl]
  exact ⟨rfl, hreq⟩

/-- Witness for the amended C2 at the counterexample's input: the cache
entry is fresh and complete, the candidates miss, and the query answers
`false` with only a metadata lookup in its trace. -/
theorem C2_fresh_complete_no_scan_witness :
    (isTrackInPlaylist envAllOk
      (CacheMap.set emptyCache "P1" ⟨[], [], 0, true⟩) 1000 10
      "spotify:track:ABC" "P1").1 = false
    ∧ ∀ r ∈ (isTrackInPlaylist envAllOk
        (CacheMap.set emptyCache "P1" ⟨[], [], 0, true⟩) 1000 10
        "spotify:track:ABC" "P1").2.2, ∃ id, r = Request.trackLookup id :=
  C2_fresh_complete_no_scan envAllOk (CacheMap.set emptyCache "P1" ⟨[], [], 0, true⟩)
    1000 10 "spotify:track:ABC" "P1" ⟨[], [], 0, true⟩
    (CacheMap.set emptyCache "P1" ⟨[], [], 0, true⟩) rfl rfl (by decide)

end ClaimC2
namespace PlaylistManager

theorem splitIntoBatchesAux_spec (b : Nat) (items : List α) :
    (∀ batch ∈ splitIntoBatchesAux items b, batch.length ≤ b + 1)
    ∧ (splitIntoBatchesAux items b).flatten = items := by
  have H : ∀ (n : Nat) (l : List α), l.length ≤ n →
      (∀ batch ∈ splitIntoBatchesAux l b, batch.length ≤ b + 1)
      ∧ (splitIntoBatchesAux l b).flatten = l := by
    intro n
    induction n with
    | zero =>
      intro l hl
      have : l = [] := List.length_eq_zero.mp (Nat.le_zero.mp hl)
      subst this
      simp [splitIntoBatchesAux]
    | succ n ih =>
      intro l hl
      cases l with
      | nil => simp [splitIntoBatchesAux]
      | cons x xs =>
        have hdrop : ((x :: xs).drop (b + 1)).length ≤ n := by
          simp only [List.length_drop, List.length_cons]
          simp only [List.length_cons] at hl
          omega
        obtain ⟨ih1, ih2⟩ := ih ((x :: xs).drop (b + 1)) hdrop
        constructor
        · intro batch hb
          unfold splitIntoBatchesAux at hb
          rcases List.mem_cons.mp hb with hb | hb
          · subst hb
            exact List.length_take_le (b + 1) (x :: xs)
          · exact ih1 batch hb
        · unfold splitIntoBatchesAux
          rw [List.flatten_cons, ih2]
          exact List.take_append_drop (b + 1) (x :: xs)
  exact H items.length items (le_refl _)

theorem workerScanLoop_no_error (env : Env) (pid : String) (cU cI : List String) :
    ∀ (offsets : List Nat) (alive : Nat) (acc : ScanAcc) (err : Bool),
      (∀ off ∈ offsets, ∃ p, env.page pid off = .ok p) →
      (workerScanLoop env pid cU cI offsets alive acc err).2.1 = err := by
  intro offsets
  induction offsets with
  | nil => intro alive acc err hok; simp [workerScanLoop]
  | cons off rest ih =>
    intro alive acc err hok
    obtain ⟨p, hp⟩ := hok off (List.mem_cons_self off rest)
    unfold workerScanLoop
    rw [hp]
    dsimp only
    rcases hproc : processItems cU cI acc (p.items.getD []) with ⟨acc2, found⟩
    dsimp only
    cases found with
    | true => rfl
    | false =>
      rw [if_neg (by decide : ¬ (false = true))]
      exact ih alive acc2 err (fun o ho => hok o (List.mem_cons_of_mem off ho))

/-- When the first page reports a numeric total and every remaining page
fetch succeeds, a scan that finds nothing replaces the cache entry with
a complete one. -/
theorem scanPlaylistForTrack_complete (env : Env) (cache : CacheMap) (now fuel : Nat)
    (pid : String) (cU cI : List String) (resp : PageResponse) (t : Nat)
    (hpage : env.page pid 0 = .ok resp) (htot : resp.total = some t)
    (hok : ∀ off ∈ remainingOffsetsList 100 t, ∃ p, env.page pid off = .ok p)
    (hfalse : (scanPlaylistForTrack env cache now fuel pid cU cI).1 = false) :
    ∃ entry, (scanPlaylistForTrack env cache now fuel pid cU cI).2.1 pid = some entry
      ∧ entry.complete = true := by
  generalize hscan : scanPlaylistForTrack env cache now fuel pid cU cI = res at hfalse ⊢
  obtain ⟨found, cache2, reqs⟩ := res
  dsimp only at hfalse ⊢
  subst hfalse
  unfold scanPlaylistForTrack at hscan
  rw [hpage] at hscan
  dsimp only at hscan
  rcases hproc : processItems cU cI ⟨[], []⟩ (resp.items.getD []) with ⟨acc1, found1⟩
  rw [hproc] at hscan
  dsimp only at hscan
  cases found1 with
  | true =>
    simp only [if_true, reduceIte, Prod.mk.injEq] at hscan
    exact absurd hscan.1 (by decide)
  | false =>
    simp only [Bool.false_eq_true, if_false, reduceIte] at hscan
    rw [htot] at hscan
    dsimp only at hscan
    by_cases hempty : (remainingOffsetsList 100 t).isEmpty
    · rw [if_pos hempty] at hscan
      simp only [Prod.mk.injEq] at hscan
      obtain ⟨-, hcache, -⟩ := hscan
      rw [← hcache]
      exact ⟨_, CacheMap.set_self _ _ _, rfl⟩
    · rw [if_neg hempty] at hscan
      rcases hworker : workerScanLoop env pid cU cI (remainingOffsetsList 100 t)
          (min 5 (remainingOffsetsList 100 t).length) acc1 false with ⟨wfound, err, acc2, reqs2⟩
      have herr : err = false := by
        have h0 := workerScanLoop_no_error env pid cU cI (remainingOffsetsList 100 t)
          (min 5 (remainingOffsetsList 100 t).length) acc1 false hok
        rw [hworker] at h0
        exact h0
      rw [hworker] at hscan
      dsimp only at hscan
      cases wfound with
      | true =>
        simp only [if_true, reduceIte, Prod.mk.injEq] at hscan
        exact absurd hscan.1 (by decide)
      | false =>
        subst herr
        simp only [Bool.false_eq_true, if_false, reduceIte, Prod.mk.injEq] at hscan
        obtain ⟨-, hcache, -⟩ := hscan
        rw [← hcache]
        exact ⟨_, CacheMap.set_self _ _ _, rfl⟩

end PlaylistManager
section ClaimC3

open PlaylistManager

/-- C3 counterexample: the engine never issues a bulk membership
`contains` request.  Even for a track in known canonical form
(`spotify:track:ABC`, id `ABC` available as a candidate), the remote
membership resolution pages through the playlist's track listing (page
size 100): its whole request trace is the single page fetch, and no
request constructor for a bulk playlist-membership `contains` call even
exists in `playlists.ts` (`splitIntoBatches` is defined but never
called). -/
theorem C3_no_bulk_contains_counterexample :
    (scanPlaylistForTrack envAllOk emptyCache 0 10 "P1" ["spotify:track:ABC"] ["ABC"]).2.2
      = [Request.pageFetch "P1" 100 0] := by
  rfl

/-- C3 as amended: the remote scan always pages through the playlist's
full track listing with page size 100 (every request it issues is a page
fetch of limit 100); the unused `splitIntoBatches` helper does split
into batches of at most the requested size while preserving the items;
and when the first page reports a numeric total and every page fetch
succeeds, a scan that exhausts all pages without a match marks the cache
entry complete. -/
theorem C3_scan_pages_no_bulk_contains :
    (∀ (env : Env) (cache : CacheMap) (now fuel : Nat) (pid : String)
      (cU cI : List String),
      ∀ r ∈ (scanPlaylistForTrack env cache now fuel pid cU cI).2.2,
        ∃ off, r = Request.pageFetch pid 100 off)
    ∧ (∀ (items : List Nat) (b : Nat),
      (∀ batch ∈ splitIntoBatchesAux items b, batch.length ≤ b + 1)
      ∧ (splitIntoBatchesAux items b).flatten = items)
    ∧ (∀ (env : Env) (cache : CacheMap) (now fuel : Nat) (pid : String)
      (cU cI : List String) (resp : PageResponse) (t : Nat),
      env.page pid 0 = .ok resp → resp.total = some t →
      (∀ off ∈ remainingOffsetsList 100 t, ∃ p, env.page pid off = .ok p) →
      (scanPlaylistForTrack env cache now fuel pid cU cI).1 = false →
      ∃ entry, (scanPlaylistForTrack env cache now fuel pid cU cI).2.1 pid = some entry
        ∧ entry.complete = true) :=
  ⟨fun env cache now fuel pid cU cI =>
      scanPlaylistForTrack_requests env cache now fuel pid cU cI,
    fun items b => splitIntoBatchesAux_spec b items,
    fun env cache now fuel pid cU cI resp t h1 h2 h3 h4 =>
      scanPlaylistForTrack_complete env cache now fuel pid cU cI resp t h1 h2 h3 h4⟩

/-- Witness for the amended C3 at concrete inputs: the counterexample
scan's only request is the first 100-item page fetch; batches of size 50
stay within bound; and the error-free empty scan leaves a complete
entry. -/
theorem C3_scan_pages_no_bulk_contains_witness :
    (∀ r ∈ (scanPlaylistForTrack envAllOk emptyCache 0 10 "P1"
        ["spotify:track:ABC"] ["ABC"]).2.2, ∃ off, r = Request.pageFetch "P1" 100 off)
    ∧ ((∀ batch ∈ splitIntoBatchesAux [1, 2, 3] 49, batch.length ≤ 50)
      ∧ (splitIntoBatchesAux [1, 2, 3] 49).flatten = [1, 2, 3])
    ∧ ∃ entry,
        (scanPlaylistForTrack envAllOk emptyCache 0 10 "P1"
          ["spotify:track:ABC"] ["ABC"]).2.1 "P1" = some entry
        ∧ entry.complete = true :=
  ⟨C3_scan_pages_no_bulk_contains.1 envAllOk emptyCache 0 10 "P1"
      ["spotify:track:ABC"] ["ABC"],
    C3_scan_pages_no_bulk_contains.2.1 [1, 2, 3] 49,
    C3_scan_pages_no_bulk_contains.2.2 envAllOk emptyCache 0 10 "P1"
      ["spotify:track:ABC"] ["ABC"] ⟨some [], some 0⟩ 0 rfl rfl
      (by intro off hoff; simp [remainingOffsetsList] at hoff) rfl⟩

end ClaimC3
namespace PlaylistManager

/-- Every playlist id is processed: no failure aborts the siblings. -/
theorem runPlaylists_map_fst (env : Env) (now fuel : Nat) (uri : String) :
    ∀ (ids : List String) (cache : CacheMap),
      ((runPlaylists env now fuel uri cache ids).2.1.map Prod.fst) = ids := by
  intro ids
  induction ids with
  | nil => intro cache; rfl
  | cons p rest ih =>
    intro cache
    unfold runPlaylists
    generalize addToSinglePlaylist env cache now fuel uri p = r1
    obtain ⟨res, cache1, reqs1⟩ := r1
    dsimp only
    generalize hrec : runPlaylists env now fuel uri cache1 rest = r2 at *
    obtain ⟨cache2, outs, reqs2⟩ := r2
    dsimp only
    have := ih cache1
    rw [hrec] at this
    dsimp only at this
    rw [List.map_cons, this]

/-- Each processed playlist lands in exactly one bucket: the three
bucket sizes add up to the number of outcomes. -/
theorem buckets_length (outs : List (String × Except String AddOutcome)) :
    (addedOf outs).length + (alreadyOf outs).length + (failedOf outs).length
      = outs.length := by
  induction outs with
  | nil => rfl
  | cons po rest ih =>
    rcases po with ⟨p, res⟩
    unfold addedOf alreadyOf failedOf at ih ⊢
    rcases res with m | o
    · simp only [List.filterMap_cons]
      try dsimp only
      simp only [List.length_cons]
      omega
    · rcases o with _ | _ <;>
        · simp only [List.filterMap_cons]
          try dsimp only
          simp only [List.length_cons]
          omega

/-- The three buckets partition the processed playlist ids. -/
theorem buckets_perm (outs : List (String × Except String AddOutcome)) :
    (addedOf outs ++ alreadyOf outs ++ (failedOf outs).map Prod.fst).Perm
      (outs.map Prod.fst) := by
  induction outs with
  | nil => rfl
  | cons po rest ih =>
    rcases po with ⟨p, res⟩
    unfold addedOf alreadyOf failedOf at ih ⊢
    rcases res with m | o
    · -- failed: p sits at the head of the third bucket
      simp only [List.filterMap_cons]
      try dsimp only
      simp only [List.map_cons]
      exact List.perm_middle.trans (ih.cons p)
    · rcases o with _ | _
      · -- added: p sits at the head of the first bucket
        simp only [List.filterMap_cons]
        try dsimp only
        simp only [List.map_cons, List.cons_append]
        exact ih.cons p
      · -- already-present: p sits at the head of the second bucket
        simp only [List.filterMap_cons]
        try dsimp only
        simp only [List.map_cons]
        refine (List.Perm.append_right _ List.perm_middle).trans ?_
        simp only [List.cons_append]
        exact ih.cons p

theorem aggregateErrorMessage_head (F : List (String × String)) :
    (aggregateErrorMessage F).data.head? = some 'F' := by
  unfold aggregateErrorMessage
  rw [String.data_append, String.data_append, String.data_append]
  rfl

theorem aggregate_ne_invalid1 (F : List (String × String)) :
    aggregateErrorMessage F ≠ invalidInputMessage1 := by
  intro h
  have h1 := congrArg (fun s => s.data.head?) h
  simp only [] at h1
  rw [aggregateErrorMessage_head F] at h1
  have h2 : invalidInputMessage1.data.head? = some 'I' := rfl
  rw [h2] at h1
  exact absurd h1 (by decide)

theorem aggregate_ne_invalid2 (F : List (String × String)) :
    aggregateErrorMessage F ≠ invalidInputMessage2 := by
  intro h
  have h1 := congrArg (fun s => s.data.head?) h
  simp only [] at h1
  rw [aggregateErrorMessage_head F] at h1
  have h2 : invalidInputMessage2.data.head? = some 'N' := rfl
  rw [h2] at h1
  exact absurd h1 (by decide)

/-- Characterization of `addToPlaylists` on valid inputs, in terms of
the per-playlist outcomes and the bucket selectors. -/
theorem addToPlaylists_valid_eq (env : Env) (cache : CacheMap) (now fuel : Nat)
    (uri : String) (ids : List String)
    (h1 : uri ≠ "") (h2 : ids ≠ [])
    (h3 : dedupFirst (ids.filter (fun s => s ≠ "")) ≠ []) :
    addToPlaylists env cache now fuel uri ids
      = (let u := dedupFirst (ids.filter (fun s => s ≠ ""));
         let outs := (runPlaylists env now fuel uri cache u).2.1;
         (if (addedOf outs).isEmpty ∧ (alreadyOf outs).isEmpty
              ∧ (failedOf outs).length = u.length
          then .error (aggregateErrorMessage (failedOf outs))
          else .ok (PlaylistAddResult.mk (addedOf outs) (alreadyOf outs) (failedOf outs)
            (addToLikedSongs env uri).1),
          (runPlaylists env now fuel uri cache u).1,
          (addToLikedSongs env uri).2 ++ (runPlaylists env now fuel uri cache u).2.2)) := by
  unfold addToPlaylists
  rw [if_neg (by
    intro hor
    rcases hor with h | h
    · exact h1 h
    · exact h2 (List.isEmpty_iff.mp h))]
  rw [if_neg (by
    intro hemp
    exact h3 (List.isEmpty_iff.mp hemp))]
  generalize addToLikedSongs env uri = L
  obtain ⟨liked, reqsL⟩ := L
  dsimp only
  generalize runPlaylists env now fuel uri cache (dedupFirst (ids.filter (fun s => s ≠ ""))) = R
  obtain ⟨cache2, outs, reqsP⟩ := R
  dsimp only
  unfold addedOf alreadyOf failedOf
  split <;> rfl

theorem addToPlaylists_invalid (env : Env) (cache : CacheMap) (now fuel : Nat)
    (uri : String) (ids : List String)
    (h : uri = "" ∨ dedupFirst (ids.filter (fun s => s ≠ "")) = []) :
    ((addToPlaylists env cache now fuel uri ids).1 = .error invalidInputMessage1
      ∨ (addToPlaylists env cache now fuel uri ids).1 = .error invalidInputMessage2)
    ∧ (addToPlaylists env cache now fuel uri ids).2.2 = [] := by
  unfold addToPlaylists
  by_cases hA : uri = "" ∨ ids.isEmpty = true
  · rw [if_pos hA]
    exact ⟨Or.inl rfl, rfl⟩
  · rw [if_neg hA]
    have hd : dedupFirst (ids.filter (fun s => s ≠ "")) = [] := by
      rcases h with h | h
      · exact absurd (Or.inl h) hA
      · exact h
    rw [if_pos (by rw [hd]; rfl)]
    exact ⟨Or.inr rfl, rfl⟩

theorem outs_length_eq (env : Env) (now fuel : Nat) (uri : String) (cache : CacheMap)
    (u : List String) :
    (runPlaylists env now fuel uri cache u).2.1.length = u.length := by
  have h := runPlaylists_map_fst env now fuel uri u cache
  have := congrArg List.length h
  simpa using this

end PlaylistManager
section ClaimC4

open PlaylistManager

/-- C4: `addToPlaylists` (1) fails with an invalid-input error, before
any remote request, exactly when the track URI is empty or the playlist
list is empty after dropping empty ids and de-duplicating; (2) on valid
input, any failure is the aggregate error (never an invalid-input
error); (3) the aggregate failure, whose `failed` list covers all N
distinct targets, occurs exactly when every target failed (zero added
and zero already-present); (4) in every other case the call succeeds
with the structured breakdown of added, already-present and failed
playlists plus the liked sub-status. -/
theorem C4_addToPlaylists_contract :
    ∀ (env : Env) (cache : CacheMap) (now fuel : Nat) (uri : String) (ids : List String)
      (u : List String) (outs : List (String × Except String AddOutcome)),
      u = dedupFirst (ids.filter (fun s => s ≠ "")) →
      outs = (runPlaylists env now fuel uri cache u).2.1 →
      ((uri = "" ∨ u = []) →
        ((addToPlaylists env cache now fuel uri ids).1 = .error invalidInputMessage1
          ∨ (addToPlaylists env cache now fuel uri ids).1 = .error invalidInputMessage2)
        ∧ (addToPlaylists env cache now fuel uri ids).2.2 = [])
      ∧ (uri ≠ "" → u ≠ [] →
        ∀ m, (addToPlaylists env cache now fuel uri ids).1 = .error m →
          m = aggregateErrorMessage (failedOf outs)
          ∧ m ≠ invalidInputMessage1 ∧ m ≠ invalidInputMessage2)
      ∧ (uri ≠ "" → u ≠ [] →
        (((addToPlaylists env cache now fuel uri ids).1
            = .error (aggregateErrorMessage (failedOf outs))
          ∧ (failedOf outs).length = u.length)
          ↔ (addedOf outs = [] ∧ alreadyOf outs = [])))
      ∧ (uri ≠ "" → u ≠ [] → ¬(addedOf outs = [] ∧ alreadyOf outs = []) →
        (addToPlaylists env cache now fuel uri ids).1
          = .ok (PlaylistAddResult.mk (addedOf outs) (alreadyOf outs) (failedOf outs)
            (addToLikedSongs env uri).1)) := by
  intro env cache now fuel uri ids u outs hu houts
  refine ⟨?_, ?_, ?_, ?_⟩
  · intro hinv
    exact addToPlaylists_invalid env cache now fuel uri ids (hu ▸ hinv)
  all_goals
    intro h1 h3
  all_goals
    have h2 : ids ≠ [] := by
      intro hnil
      apply h3
      rw [hu, hnil]
      simp [dedupFirst, dedupFirstAux]
  all_goals
    have hchar := addToPlaylists_valid_eq env cache now fuel uri ids h1 h2 (hu ▸ h3)
  all_goals
    rw [← hu] at hchar
  all_goals
    have hlen : outs.length = u.length := houts ▸ outs_length_eq env now fuel uri cache u
  all_goals
    have hcnt := buckets_length outs
  all_goals
    have hcond : ((addedOf outs).isEmpty ∧ (alreadyOf outs).isEmpty
        ∧ (failedOf outs).length = u.length)
        ↔ (addedOf outs = [] ∧ alreadyOf outs = []) := by
      constructor
      · intro ⟨ha, hp, _⟩
        exact ⟨List.isEmpty_iff.mp ha, List.isEmpty_iff.mp hp⟩
      · intro ⟨ha, hp⟩
        refine ⟨by rw [ha]; rfl, by rw [hp]; rfl, ?_⟩
        rw [ha, hp] at hcnt
        simp at hcnt
        omega
  · -- (2) any failure is the aggregate error
    intro m hm
    rw [hchar] at hm
    dsimp only at hm
    rw [← houts] at hm
    split at hm
    · injection hm with hm
      exact ⟨hm.symm, hm ▸ aggregate_ne_invalid1 _, hm ▸ aggregate_ne_invalid2 _⟩
    · exact absurd hm (by simp)
  · -- (3) aggregate failure iff all failed
    constructor
    · intro ⟨herr, _⟩
      rw [hchar] at herr
      dsimp only at herr
      rw [← houts] at herr
      split at herr
      · next hc => exact hcond.mp hc
      · exact absurd herr (by simp)
    · intro hall
      have hc := hcond.mpr hall
      constructor
      · rw [hchar]
        dsimp only
        rw [← houts]
        rw [if_pos hc]
      · rw [hall.1, hall.2] at hcnt
        simp at hcnt
        omega
  · -- (4) otherwise success
    intro hnotall
    rw [hchar]
    dsimp only
    rw [← houts]
    rw [if_neg (fun hc => hnotall (hcond.mp hc))]

end ClaimC4
section ClaimC10

open PlaylistManager

/-- C10: whenever `addToPlaylists` returns a structured result, the
playlist ids in its `added`, `alreadyPresent` and `failed` buckets
together form a permutation of the de-duplicated input list (empty ids
dropped, first occurrences kept): every distinct requested playlist
lands in exactly one bucket, none is dropped and none is duplicated. -/
theorem C10_result_partitions_input :
    ∀ (env : Env) (cache : CacheMap) (now fuel : Nat) (uri : String) (ids : List String)
      (r : PlaylistAddResult),
      (addToPlaylists env cache now fuel uri ids).1 = .ok r →
      (r.added ++ r.alreadyPresent ++ r.failed.map Prod.fst).Perm
        (dedupFirst (ids.filter (fun s => s ≠ ""))) := by
  intro env cache now fuel uri ids r hok
  by_cases h1 : uri = ""
  · rcases (addToPlaylists_invalid env cache now fuel uri ids (Or.inl h1)).1 with h | h <;>
      rw [hok] at h <;> exact absurd h (by simp)
  by_cases h3 : dedupFirst (ids.filter (fun s => s ≠ "")) = []
  · rcases (addToPlaylists_invalid env cache now fuel uri ids (Or.inr h3)).1 with h | h <;>
      rw [hok] at h <;> exact absurd h (by simp)
  have h2 : ids ≠ [] := by
    intro hnil
    apply h3
    rw [hnil]
    simp [dedupFirst, dedupFirstAux]
  rw [addToPlaylists_valid_eq env cache now fuel uri ids h1 h2 h3] at hok
  dsimp only at hok
  split at hok
  · exact absurd hok (by simp)
  · injection hok with hok
    rw [← hok]
    dsimp only
    exact (buckets_perm _).trans
      (by rw [runPlaylists_map_fst env now fuel uri
        (dedupFirst (ids.filter (fun s => s ≠ ""))) cache])

end ClaimC10
section ClaimC4Witness

open PlaylistManager

/-- C4 witness: on a concrete valid input with duplicate and empty ids,
not every target fails, and the call returns the structured breakdown
with the liked sub-status. -/
theorem C4_addToPlaylists_contract_witness :
    ¬(addedOf ((runPlaylists envAllOk 0 10 "spotify:track:ABC" emptyCache ["P1", "P2"]).2.1) = []
        ∧ alreadyOf ((runPlaylists envAllOk 0 10 "spotify:track:ABC" emptyCache
            ["P1", "P2"]).2.1) = [])
    ∧ (addToPlaylists envAllOk emptyCache 0 10 "spotify:track:ABC" ["P1", "", "P2", "P1"]).1
      = .ok (PlaylistAddResult.mk
          (addedOf ((runPlaylists envAllOk 0 10 "spotify:track:ABC" emptyCache ["P1", "P2"]).2.1))
          (alreadyOf ((runPlaylists envAllOk 0 10 "spotify:track:ABC" emptyCache
            ["P1", "P2"]).2.1))
          (failedOf ((runPlaylists envAllOk 0 10 "spotify:track:ABC" emptyCache ["P1", "P2"]).2.1))
          (addToLikedSongs envAllOk "spotify:track:ABC").1) :=
  ⟨by decide,
    (C4_addToPlaylists_contract envAllOk emptyCache 0 10 "spotify:track:ABC"
        ["P1", "", "P2", "P1"] ["P1", "P2"]
        ((runPlaylists envAllOk 0 10 "spotify:track:ABC" emptyCache ["P1", "P2"]).2.1)
        (by simp [dedupFirst, dedupFirstAux]) rfl).2.2.2
      (by decide) (by decide) (by decide)⟩

end ClaimC4Witness
section ClaimC10Witness

open PlaylistManager

/-- C10 witness: at a concrete input the returned buckets permute the
de-duplicated playlist list. -/
theorem C10_result_partitions_input_witness :
    (addToPlaylists envAllOk emptyCache 0 10 "spotify:track:ABC" ["P1", "", "P2", "P1"]).1
      = .ok (PlaylistAddResult.mk ["P1", "P2"] [] [] LikedStatus.added)
    ∧ ((["P1", "P2"] ++ [] ++ ([] : List (String × String)).map Prod.fst).Perm
        (dedupFirst ((["P1", "", "P2", "P1"] : List String).filter (fun s => s ≠ "")))) :=
  ⟨rfl,
    C10_result_partitions_input envAllOk emptyCache 0 10 "spotify:track:ABC"
      ["P1", "", "P2", "P1"] (PlaylistAddResult.mk ["P1", "P2"] [] [] LikedStatus.added)
      rfl⟩

end ClaimC10Witness
namespace JsStr

theorem containsChars_nil_needle (hay : List Char) : containsChars hay [] = true := by
  cases hay <;> rfl

theorem containsChars_append_left (h t s : List Char)
    (hc : containsChars t s = true) : containsChars (h ++ t) s = true := by
  induction h with
  | nil => exact hc
  | cons c hs ih =>
    cases s with
    | nil => exact containsChars_nil_needle _
    | cons d ds =>
      rw [List.cons_append]
      show ((d :: ds).isPrefixOf (c :: (hs ++ t))
        || containsChars (hs ++ t) (d :: ds)) = true
      rw [ih, Bool.or_true]

theorem containsChars_self_append (s t : List Char) :
    containsChars (s ++ t) s = true := by
  cases s with
  | nil => exact containsChars_nil_needle _
  | cons c cs =>
    have hpre : (c :: cs).isPrefixOf ((c :: cs) ++ t) = true :=
      List.isPrefixOf_iff_prefix.mpr ⟨t, rfl⟩
    rw [List.cons_append] at hpre ⊢
    show ((c :: cs).isPrefixOf (c :: (cs ++ t))
      || containsChars (cs ++ t) (c :: cs)) = true
    rw [hpre, Bool.true_or]

end JsStr
namespace PlaylistManager

theorem genericErrorMessage_includes (pid : String) (e : RemoteError)
    (h : e.isErrorInstance = true) :
    JsStr.jsIncludes (genericErrorMessage pid e) (e.message.getD "") = true := by
  unfold genericErrorMessage JsStr.jsIncludes
  rw [if_pos h]
  simp only [String.data_append, List.append_assoc]
  exact JsStr.containsChars_append_left _ _ _
    (JsStr.containsChars_append_left _ _ _
      (JsStr.containsChars_append_left _ _ _
        (JsStr.containsChars_self_append _ _)))

theorem addToSinglePlaylist_error_cases (env : Env) (cache : CacheMap)
    (now fuel : Nat) (uri pid : String) (e : RemoteError)
    (hmem : (isTrackInPlaylist env cache now fuel uri pid).1 = false)
    (hadd : env.addTracks pid uri = .error e) :
    (addToSinglePlaylist env cache now fuel uri pid).1
      = (if isDuplicateTrackError (some e) then .ok .alreadyPresent
         else if isPermission403 e then .error permissionErrorMessage
         else .error (genericErrorMessage pid e)) := by
  unfold addToSinglePlaylist
  generalize hm : isTrackInPlaylist env cache now fuel uri pid = res at hmem ⊢
  obtain ⟨found, cache1, reqs1⟩ := res
  dsimp only at hmem ⊢
  subst hmem
  rw [if_neg (by decide : ¬(false = true))]
  rw [hadd]
  dsimp only
  by_cases hd : isDuplicateTrackError (some e) = true
  · rw [if_pos hd, if_pos hd]
  · rw [if_neg hd, if_neg hd]
    split
    · next hraw =>
      rw [if_pos (show isPermission403 e = true from hraw)]
    · next hraw =>
      rw [if_neg (show ¬isPermission403 e = true from hraw)]

end PlaylistManager
section ClaimC5

open PlaylistManager

/-- C5: when the membership check finds the track absent and the remote
add-tracks write fails, `addToSinglePlaylist` classifies the error: an
error the engine classifies as duplicate (status 400/409 with
`duplicate` in the reason or message) is recorded as the successful
`alreadyPresent` outcome and never surfaced as a failure; a
permission/read-only error (status 403 or a message mentioning `403` or
`Forbidden`) is recorded as the descriptive read-only failure for that
playlist; any other error is recorded as the generic failure whose text
carries the underlying error message; and no per-playlist failure
aborts the siblings: `runPlaylists` records exactly one outcome for
every requested playlist. -/
theorem C5_error_classification :
    ∀ (env : Env) (cache : CacheMap) (now fuel : Nat) (uri pid : String) (e : RemoteError),
      (isTrackInPlaylist env cache now fuel uri pid).1 = false →
      env.addTracks pid uri = .error e →
      ((isDuplicateTrackError (some e) = true →
          (addToSinglePlaylist env cache now fuel uri pid).1 = .ok .alreadyPresent)
        ∧ (isDuplicateTrackError (some e) = false → isPermission403 e = true →
          (addToSinglePlaylist env cache now fuel uri pid).1
            = .error permissionErrorMessage)
        ∧ (isDuplicateTrackError (some e) = false → isPermission403 e = false →
          (addToSinglePlaylist env cache now fuel uri pid).1
            = .error (genericErrorMessage pid e)
          ∧ (e.isErrorInstance = true →
              JsStr.jsIncludes (genericErrorMessage pid e) (e.message.getD "") = true))
        ∧ ∀ ids : List String,
            ((runPlaylists env now fuel uri cache ids).2.1.map Prod.fst) = ids) := by
  intro env cache now fuel uri pid e hmem hadd
  have hcase := addToSinglePlaylist_error_cases env cache now fuel uri pid e hmem hadd
  refine ⟨?_, ?_, ?_, fun ids => runPlaylists_map_fst env now fuel uri ids cache⟩
  · intro hd
    rw [hcase, if_pos hd]
  · intro hd hp
    rw [hcase, if_neg (by simp [hd]), if_pos hp]
  · intro hd hp
    refine ⟨?_, fun hi => genericErrorMessage_includes pid e hi⟩
    rw [hcase, if_neg (by simp [hd]), if_neg (by simp [hp])]

end ClaimC5
section ClaimC5Witness

open PlaylistManager

/-- C5 witness: a concrete 409 duplicate write is reclassified as the
already-present success. -/
theorem C5_error_classification_witness :
    (isTrackInPlaylist envDup emptyCache 0 10 "spotify:track:ABC" "P1").1 = false
    ∧ envDup.addTracks "P1" "spotify:track:ABC" = .error dupErr
    ∧ isDuplicateTrackError (some dupErr) = true
    ∧ (addToSinglePlaylist envDup emptyCache 0 10 "spotify:track:ABC" "P1").1
        = .ok .alreadyPresent :=
  ⟨rfl, rfl, by decide,
    (C5_error_classification envDup emptyCache 0 10 "spotify:track:ABC" "P1" dupErr
        rfl rfl).1 (by decide)⟩

end ClaimC5Witness
namespace PlaylistManager

section EnvCongr

variable (env env' : Env)

theorem getTrackIdCandidates_congr (htl : env'.trackLookup = env.trackLookup) :
    ∀ uri : String, getTrackIdCandidates env' uri = getTrackIdCandidates env uri := by
  intro uri
  unfold getTrackIdCandidates
  rw [htl]

theorem seqScanLoop_congr (hpg : env'.page = env.page) (pid : String) (cu ci : List String) :
    ∀ (fuel offset lastFetched : Nat) (acc : ScanAcc),
      seqScanLoop env' pid cu ci fuel offset lastFetched acc
        = seqScanLoop env pid cu ci fuel offset lastFetched acc := by
  intro fuel
  induction fuel with
  | zero => intro _ _ _; rfl
  | succ n ih =>
    intro offset lastFetched acc
    simp only [seqScanLoop, hpg, ih]

theorem workerScanLoop_congr (hpg : env'.page = env.page) (pid : String) (cu ci : List String) :
    ∀ (q : List Nat) (alive : Nat) (acc : ScanAcc) (err : Bool),
      workerScanLoop env' pid cu ci q alive acc err
        = workerScanLoop env pid cu ci q alive acc err := by
  intro q
  induction q with
  | nil => intro _ _ _; rfl
  | cons off rest ih =>
    intro alive acc err
    simp only [workerScanLoop, hpg, ih]

theorem scanPlaylistForTrack_congr (hpg : env'.page = env.page) :
    ∀ (cache : CacheMap) (now fuel : Nat) (pid : String) (cu ci : List String),
      scanPlaylistForTrack env' cache now fuel pid cu ci
        = scanPlaylistForTrack env cache now fuel pid cu ci := by
  intro cache now fuel pid cu ci
  simp only [scanPlaylistForTrack, hpg, seqScanLoop_congr env env' hpg pid cu ci,
    workerScanLoop_congr env env' hpg pid cu ci]

theorem isTrackInPlaylist_congr (htl : env'.trackLookup = env.trackLookup)
    (hpg : env'.page = env.page) :
    ∀ (cache : CacheMap) (now fuel : Nat) (uri pid : String),
      isTrackInPlaylist env' cache now fuel uri pid
        = isTrackInPlaylist env cache now fuel uri pid := by
  intro cache now fuel uri pid
  simp only [isTrackInPlaylist, getTrackIdCandidates_congr env env' htl,
    scanPlaylistForTrack_congr env env' hpg]

theorem addTrackToCache_congr (htl : env'.trackLookup = env.trackLookup) :
    ∀ (cache : CacheMap) (now : Nat) (pid uri : String),
      addTrackToCache env' cache now pid uri = addTrackToCache env cache now pid uri := by
  intro cache now pid uri
  simp only [addTrackToCache, getTrackIdCandidates_congr env env' htl]

theorem addToSinglePlaylist_congr (htl : env'.trackLookup = env.trackLookup)
    (hpg : env'.page = env.page) (hat : env'.addTracks = env.addTracks) :
    ∀ (cache : CacheMap) (now fuel : Nat) (uri pid : String),
      addToSinglePlaylist env' cache now fuel uri pid
        = addToSinglePlaylist env cache now fuel uri pid := by
  intro cache now fuel uri pid
  simp only [addToSinglePlaylist, isTrackInPlaylist_congr env env' htl hpg, hat,
    addTrackToCache_congr env env' htl]

theorem runPlaylists_congr (htl : env'.trackLookup = env.trackLookup)
    (hpg : env'.page = env.page) (hat : env'.addTracks = env.addTracks) :
    ∀ (ids : List String) (cache : CacheMap) (now fuel : Nat) (uri : String),
      runPlaylists env' now fuel uri cache ids = runPlaylists env now fuel uri cache ids := by
  intro ids
  induction ids with
  | nil => intro _ _ _ _; rfl
  | cons p rest ih =>
    intro cache now fuel uri
    simp only [runPlaylists, addToSinglePlaylist_congr env env' htl hpg hat, ih]

end EnvCongr
end PlaylistManager
namespace PlaylistManager

theorem addToPlaylists_liked_independent (env : Env)
    (lc : String → Except RemoteError (Option (List Bool)))
    (lp : String → Except RemoteError Unit)
    (cache : CacheMap) (now fuel : Nat) (uri : String) (ids : List String) :
    (addToPlaylists { env with likedContains := lc, likedPut := lp }
        cache now fuel uri ids).1
      = withLikedStatus (addToPlaylists env cache now fuel uri ids).1
          ((addToLikedSongs { env with likedContains := lc, likedPut := lp } uri).1) := by
  unfold addToPlaylists
  by_cases hA : uri = "" ∨ ids.isEmpty = true
  · simp only [if_pos hA]
    rfl
  · simp only [if_neg hA]
    by_cases hB : (dedupFirst (ids.filter (fun s => s ≠ ""))).isEmpty = true
    · simp only [if_pos hB]
      rfl
    · simp only [if_neg hB]
      rw [runPlaylists_congr env { env with likedContains := lc, likedPut := lp }
        rfl rfl rfl]
      generalize addToLikedSongs { env with likedContains := lc, likedPut := lp } uri = L2
      obtain ⟨ls2, r2⟩ := L2
      generalize addToLikedSongs env uri = L1
      obtain ⟨ls1, r1⟩ := L1
      dsimp only
      generalize runPlaylists env now fuel uri cache
        (dedupFirst (ids.filter (fun s => s ≠ ""))) = R
      obtain ⟨cache2, outs, reqsP⟩ := R
      dsimp only
      split <;> rfl

end PlaylistManager
section ClaimC6

open PlaylistManager

/-- C6: the liked-songs sub-step never fails or blocks the overall
operation: (1) it always yields one of the three sub-results `added`,
`alreadyLiked`, `failed`; (2) replacing the liked-songs endpoints (the
only remote calls the sub-step makes) changes nothing about the overall
result except the recorded liked sub-status — the success/failure of
the call and the added/already-present/failed breakdown are untouched;
(3) a `SyntaxError` thrown by the liked write (malformed response body
on a successful write) is recorded as the successful `added` sub-status
rather than `failed`. -/
theorem C6_liked_never_blocks :
    (∀ (env : Env) (uri : String),
      (addToLikedSongs env uri).1 = .added ∨ (addToLikedSongs env uri).1 = .alreadyLiked
        ∨ (addToLikedSongs env uri).1 = .failed)
    ∧ (∀ (env : Env) (lc : String → Except RemoteError (Option (List Bool)))
        (lp : String → Except RemoteError Unit) (cache : CacheMap) (now fuel : Nat)
        (uri : String) (ids : List String),
        (addToPlaylists { env with likedContains := lc, likedPut := lp }
            cache now fuel uri ids).1
          = withLikedStatus (addToPlaylists env cache now fuel uri ids).1
              ((addToLikedSongs { env with likedContains := lc, likedPut := lp } uri).1))
    ∧ (∀ (env : Env) (uri : String) (e : RemoteError),
        extractTrackId uri ≠ "" →
        (isTrackLiked env uri).1 = false →
        env.likedPut (extractTrackId uri) = .error e →
        e.isSyntaxError = true →
        (addToLikedSongs env uri).1 = .added) := by
  refine ⟨?_, ?_, ?_⟩
  · intro env uri
    cases h : (addToLikedSongs env uri).1 with
    | added => exact Or.inl rfl
    | alreadyLiked => exact Or.inr (Or.inl rfl)
    | failed => exact Or.inr (Or.inr rfl)
  · intro env lc lp cache now fuel uri ids
    exact addToPlaylists_liked_independent env lc lp cache now fuel uri ids
  · intro env uri e hid hliked hput hsyn
    unfold addToLikedSongs
    rw [if_neg hid]
    generalize hL : isTrackLiked env uri = L at hliked ⊢
    obtain ⟨liked, r1⟩ := L
    dsimp only at hliked ⊢
    subst hliked
    rw [if_neg (by decide : ¬(false = true))]
    rw [hput]
    dsimp only
    rw [if_pos hsyn]

end ClaimC6
section ClaimC6Witness

open PlaylistManager

/-- C6 witness: with a liked-songs write that throws a concrete
`SyntaxError`, the sub-step records `added`. -/
theorem C6_liked_never_blocks_witness :
    (isTrackLiked envSyn "spotify:track:ABC").1 = false
    ∧ envSyn.likedPut "ABC" = .error synErr
    ∧ synErr.isSyntaxError = true
    ∧ (addToLikedSongs envSyn "spotify:track:ABC").1 = .added :=
  ⟨rfl, rfl, rfl,
    C6_liked_never_blocks.2.2 envSyn "spotify:track:ABC" synErr (by decide) rfl rfl rfl⟩

end ClaimC6Witness
